import Mathlib

/-!
Shallow embedding of `upload_to_imgur.py`: a one-shot script that mirrors the
`lnxpcs` directory tree of `.png` files into imgur albums.  Pure helpers of the
script become Lean functions; the stateful reconciliation loop is embedded as
explicit state passing producing a trace of remote-call / print events; the
imgur client, the filesystem and the interactive pin are oracles passed in as
parameters.  Library functions the script calls (`os.path.*`, `os.walk`,
`configparser`) are modelled after their documented POSIX behaviour.
-/

namespace Imgur

/-! ### Constants of the script -/

def REPO_DIR : String := "lnxpcs"

def CLIENT_SECTION : String := "client"

def TOKENS_SECTION : String := "tokens"

def ROOT_URL : String := "https://github.com/jstpcs/"

/-! ### Path model (POSIX `os.path`, for normalized absolute paths) -/

/-- The `/`-separated components of a path, empty segments dropped
(what `posixpath` reasoning reduces to on normalized absolute paths). -/
def comps (p : String) : List String :=
  ((p.toList.splitOn '/').filter (fun l => !l.isEmpty)).map (fun l => (⟨l⟩ : String))

/-- Join components with `/` (Python's `"/".join`). -/
def joinComps (cs : List String) : String :=
  ⟨(['/'] : List Char).intercalate (cs.map String.toList)⟩

/-- The normalized absolute path with the given components. -/
def mkAbs (cs : List String) : String :=
  "/" ++ joinComps cs

/-- Model of `posixpath.join` for two arguments. -/
def pjoin (a b : String) : String :=
  if b.toList.head? = some '/' then b
  else if a = "" ∨ a.toList.getLast? = some '/' then a ++ b
  else a ++ "/" ++ b

/-- Model of `posixpath.basename`: everything after the last slash. -/
def basename (p : String) : String :=
  ⟨((p.toList.splitOn '/').getLast?).getD []⟩

/-- Length of the common prefix of two component lists
(`posixpath.commonprefix` on split paths). -/
def commonLen : List String → List String → Nat
  | a :: as, b :: bs => if a = b then commonLen as bs + 1 else 0
  | _, _ => 0

/-- Model of `posixpath.relpath path start` for normalized absolute inputs. -/
def relpath (path start : String) : String :=
  let pc := comps path
  let sc := comps start
  let i := commonLen pc sc
  let rel := List.replicate (sc.length - i) ".." ++ pc.drop i
  if rel = [] then "." else joinComps rel

/-- Model of `os.path.realpath (os.path.join p "..")` for a normalized
absolute symlink-free path: drop the last component. -/
def parentPath (p : String) : String :=
  mkAbs (comps p).dropLast

/-- A valid filesystem entry name: nonempty, not `.`/`..`, slash-free.
Real directory entries always satisfy this. -/
def validName (n : String) : Prop :=
  n ≠ "" ∧ n ≠ "." ∧ n ≠ ".." ∧ '/' ∉ n.toList

instance (n : String) : Decidable (validName n) := by
  unfold validName; infer_instance

/-! ### Basic path lemmas -/

theorem toList_mk (l : List Char) : (⟨l⟩ : String).toList = l := rfl

theorem toList_append (a b : String) : (a ++ b).toList = a.toList ++ b.toList := rfl

theorem joinComps_nil : joinComps [] = "" := rfl

theorem joinComps_singleton (n : String) : joinComps [n] = n := by
  unfold joinComps
  simp [List.intercalate]

theorem joinComps_cons (n : String) (cs : List String) (h : cs ≠ []) :
    joinComps (n :: cs) = n ++ "/" ++ joinComps cs := by
  unfold joinComps
  cases cs with
  | nil => exact absurd rfl h
  | cons c cs' =>
    apply congrArg String.mk
    simp [List.intercalate, List.intersperse]

theorem mk_toList (s : String) : (⟨s.toList⟩ : String) = s := by
  cases s; rfl

theorem validName_toList_ne_nil {n : String} (h : validName n) : n.toList ≠ [] := by
  intro hc
  exact h.1 (by cases n with | mk d => cases d <;> simp_all [String.toList])

theorem validName_no_slash {n : String} (h : validName n) : '/' ∉ n.toList := h.2.2.2

/-- Unfolding of `intercalate` on a two-or-more element list. -/
theorem intercalate_cons₂ (x : List Char) (y : List Char) (rest : List (List Char)) :
    (['/'] : List Char).intercalate (x :: y :: rest) =
      x ++ '/' :: (['/'] : List Char).intercalate (y :: rest) := by
  simp [List.intercalate, List.intersperse]

theorem intercalate_single (x : List Char) :
    (['/'] : List Char).intercalate [x] = x := by
  simp [List.intercalate]

/-- The intercalation of valid-name character lists is nonempty when the
list of names is nonempty. -/
theorem intercalate_ne_nil {cs : List String} (hne : cs ≠ [])
    (hv : ∀ n ∈ cs, validName n) :
    (['/'] : List Char).intercalate (cs.map String.toList) ≠ [] := by
  cases cs with
  | nil => exact absurd rfl hne
  | cons n rest =>
    cases rest with
    | nil =>
      simpa [intercalate_single] using validName_toList_ne_nil (hv n (by simp))
    | cons m rest' =>
      rw [List.map_cons, List.map_cons, intercalate_cons₂]
      intro hc
      exact validName_toList_ne_nil (hv n (by simp)) (List.append_eq_nil.mp hc).1

theorem getLast?_cons_of_ne_nil {α : Type} {a : α} {l : List α} (h : l ≠ []) :
    (a :: l).getLast? = l.getLast? := by
  cases l with
  | nil => exact absurd rfl h
  | cons b bl => exact List.getLast?_cons_cons

/-- The last character of a slash-joined list of valid names is not a slash. -/
theorem intercalate_getLast_ne_slash {cs : List String} (hne : cs ≠ [])
    (hv : ∀ n ∈ cs, validName n) :
    ((['/'] : List Char).intercalate (cs.map String.toList)).getLast? ≠ some '/' := by
  induction cs with
  | nil => exact absurd rfl hne
  | cons n rest ih =>
    cases rest with
    | nil =>
      rw [List.map_cons, List.map_nil, intercalate_single]
      intro hc
      exact validName_no_slash (hv n (by simp))
        (List.mem_of_mem_getLast? (by rw [hc]; exact rfl))
    | cons m rest' =>
      rw [List.map_cons, List.map_cons, intercalate_cons₂]
      rw [List.getLast?_append_cons]
      have hrec := ih (by simp) (fun x hx => hv x (by simp [hx]))
      rw [List.map_cons] at hrec
      intro hc
      apply hrec
      have hne' : (['/'] : List Char).intercalate (m.toList :: rest'.map String.toList) ≠ [] := by
        have := @intercalate_ne_nil (m :: rest') (by simp)
          (fun x hx => hv x (by simp_all))
        simpa using this
      rw [← getLast?_cons_of_ne_nil (a := '/') hne']
      exact hc

theorem map_mk_map_toList (cs : List String) :
    ((cs.map String.toList).map (fun l => (⟨l⟩ : String))) = cs := by
  rw [List.map_map]
  have : (fun l => (⟨l⟩ : String)) ∘ String.toList = id := by
    funext s; exact mk_toList s
  rw [this, List.map_id]

/-- Components of a built absolute path recover the component list. -/
theorem comps_mkAbs {cs : List String} (hv : ∀ n ∈ cs, validName n) :
    comps (mkAbs cs) = cs := by
  cases cs with
  | nil => rfl
  | cons n rest =>
    have hv' : ∀ l ∈ (n :: rest).map String.toList, '/' ∉ l := by
      intro l hl
      rcases List.mem_map.mp hl with ⟨s, hs, rfl⟩
      exact validName_no_slash (hv s hs)
    have hdata : (mkAbs (n :: rest)).toList =
        '/' :: (['/'] : List Char).intercalate ((n :: rest).map String.toList) := rfl
    unfold comps
    rw [hdata]
    rw [show ∀ (l : List Char), l.splitOn '/' = l.splitOnP (· == '/') from fun _ => rfl]
    rw [List.splitOnP_cons]
    simp only [beq_self_eq_true, if_pos]
    rw [show ∀ (l : List Char), l.splitOnP (· == '/') = l.splitOn '/' from fun _ => rfl]
    rw [List.splitOn_intercalate _ '/' hv' (by simp)]
    rw [List.filter_cons]
    simp only [List.isEmpty_nil, Bool.not_true, Bool.false_eq_true, if_neg, reduceCtorEq,
      not_false_eq_true]
    have hkeep : ∀ l ∈ (n :: rest).map String.toList, (!l.isEmpty) = true := by
      intro l hl
      rcases List.mem_map.mp hl with ⟨s, hs, rfl⟩
      simpa [List.isEmpty_iff] using validName_toList_ne_nil (hv s hs)
    rw [List.filter_eq_self.mpr hkeep]
    exact map_mk_map_toList (n :: rest)

/-- Components of a slash-joined relative path recover the component list. -/
theorem comps_joinComps {cs : List String} (hv : ∀ n ∈ cs, validName n) :
    comps (joinComps cs) = cs := by
  cases cs with
  | nil => rfl
  | cons n rest =>
    have hv' : ∀ l ∈ (n :: rest).map String.toList, '/' ∉ l := by
      intro l hl
      rcases List.mem_map.mp hl with ⟨s, hs, rfl⟩
      exact validName_no_slash (hv s hs)
    unfold comps joinComps
    rw [toList_mk]
    rw [List.splitOn_intercalate _ '/' hv' (by simp)]
    have hkeep : ∀ l ∈ (n :: rest).map String.toList, (!l.isEmpty) = true := by
      intro l hl
      rcases List.mem_map.mp hl with ⟨s, hs, rfl⟩
      simpa [List.isEmpty_iff] using validName_toList_ne_nil (hv s hs)
    rw [List.filter_eq_self.mpr hkeep]
    exact map_mk_map_toList (n :: rest)

/-- `joinComps` is injective on lists of valid names. -/
theorem joinComps_injOn {cs ds : List String} (hc : ∀ n ∈ cs, validName n)
    (hd : ∀ n ∈ ds, validName n) (h : joinComps cs = joinComps ds) : cs = ds := by
  have := congrArg comps h
  rwa [comps_joinComps hc, comps_joinComps hd] at this

theorem intercalate_append_single (ls : List (List Char)) (m : List Char) (h : ls ≠ []) :
    (['/'] : List Char).intercalate (ls ++ [m]) =
      (['/'] : List Char).intercalate ls ++ '/' :: m := by
  induction ls with
  | nil => exact absurd rfl h
  | cons x rest ih =>
    cases rest with
    | nil => simp [intercalate_single, intercalate_cons₂]
    | cons y rest' =>
      rw [List.cons_append, List.cons_append, intercalate_cons₂, intercalate_cons₂,
        ← List.cons_append, ih (by simp), List.append_assoc]
      rfl

theorem joinComps_append_single (cs : List String) (n : String) (h : cs ≠ []) :
    joinComps (cs ++ [n]) = joinComps cs ++ "/" ++ n := by
  apply congrArg String.mk
  show (['/'] : List Char).intercalate ((cs ++ [n]).map String.toList) =
    (joinComps cs ++ "/" ++ n).toList
  rw [List.map_append, List.map_singleton,
    intercalate_append_single _ _ (by simpa using h)]
  show (['/'] : List Char).intercalate (cs.map String.toList) ++ '/' :: n.toList =
    ((joinComps cs).toList ++ ['/']) ++ n.toList
  rw [List.append_assoc]
  rfl

theorem mkAbs_ne_empty (cs : List String) : mkAbs cs ≠ "" := by
  intro hc
  have : (mkAbs cs).toList = [] := by rw [hc]; rfl
  rw [show (mkAbs cs).toList =
    '/' :: (['/'] : List Char).intercalate (cs.map String.toList) from rfl] at this
  exact List.cons_ne_nil _ _ this

/-- `posixpath.join` of a built absolute path with a valid name appends a
component. -/
theorem pjoin_mkAbs (cs : List String) (n : String) (hcs : ∀ x ∈ cs, validName x)
    (hn : validName n) : pjoin (mkAbs cs) n = mkAbs (cs ++ [n]) := by
  have hhead : n.toList.head? ≠ some '/' := by
    intro hc
    exact validName_no_slash hn (List.mem_of_mem_head? (by rw [hc]; exact rfl))
  unfold pjoin
  rw [if_neg hhead]
  cases cs with
  | nil =>
    have hl : (mkAbs []).toList.getLast? = some '/' := rfl
    rw [if_pos (Or.inr hl)]
    show mkAbs [] ++ n = "/" ++ joinComps [n]
    rw [joinComps_singleton]
    rfl
  | cons c rest =>
    have hne : (['/'] : List Char).intercalate ((c :: rest).map String.toList) ≠ [] :=
      intercalate_ne_nil (by simp) hcs
    have hlast : (mkAbs (c :: rest)).toList.getLast? ≠ some '/' := by
      rw [show (mkAbs (c :: rest)).toList =
        '/' :: (['/'] : List Char).intercalate ((c :: rest).map String.toList) from rfl]
      rw [getLast?_cons_of_ne_nil hne]
      exact intercalate_getLast_ne_slash (by simp) hcs
    rw [if_neg (by push_neg; exact ⟨mkAbs_ne_empty _, hlast⟩)]
    show mkAbs (c :: rest) ++ "/" ++ n = mkAbs ((c :: rest) ++ [n])
    unfold mkAbs
    rw [joinComps_append_single _ _ (by simp)]
    rw [String.append_assoc, String.append_assoc, String.append_assoc]

/-- Walking a component list with `pjoin` from a built absolute path appends
all the components. -/
theorem foldl_pjoin_mkAbs (cs : List String) (as : List String)
    (has : ∀ x ∈ as, validName x) (hcs : ∀ x ∈ cs, validName x) :
    cs.foldl pjoin (mkAbs as) = mkAbs (as ++ cs) := by
  induction cs generalizing as with
  | nil => simp
  | cons n rest ih =>
    rw [List.foldl_cons, pjoin_mkAbs as n has (hcs n (by simp))]
    rw [ih (as ++ [n])
      (by intro x hx
          rcases List.mem_append.mp hx with h | h
          · exact has x h
          · rw [List.mem_singleton.mp h]; exact hcs n (by simp))
      (fun x hx => hcs x (by simp [hx]))]
    simp

theorem commonLen_append (l m : List String) : commonLen (l ++ m) l = l.length := by
  induction l with
  | nil => cases m <;> rfl
  | cons a as ih => simpa [commonLen] using ih

/-- `posixpath.relpath` on a built absolute path below a built absolute start
returns the slash-joined extra components. -/
theorem relpath_mkAbs (rc m : List String) (hrc : ∀ x ∈ rc, validName x)
    (hm : ∀ x ∈ m, validName x) (hne : m ≠ []) :
    relpath (mkAbs (rc ++ m)) (mkAbs rc) = joinComps m := by
  have h1 : comps (mkAbs (rc ++ m)) = rc ++ m := comps_mkAbs (by
    intro x hx
    rcases List.mem_append.mp hx with h | h
    · exact hrc x h
    · exact hm x h)
  have h2 : comps (mkAbs rc) = rc := comps_mkAbs hrc
  unfold relpath
  simp only [h1, h2, commonLen_append, Nat.sub_self, List.replicate_zero, List.nil_append,
    List.drop_left]
  rw [if_neg (by simpa using hne)]

/-! ### Filesystem model and the Image Scanner (`find_all_images`) -/

/-- A directory tree: entry name, plain files in the directory, subdirectories. -/
inductive FSTree where
  | node : String → List String → List FSTree → FSTree

def FSTree.name : FSTree → String
  | .node n _ _ => n

def FSTree.files : FSTree → List String
  | .node _ f _ => f

def FSTree.subdirs : FSTree → List FSTree
  | .node _ _ s => s

mutual

/-- Model of `os.walk path` (top-down) over the tree rooted at `path`:
yields `(walk_root, dirnames, filenames)` per directory. -/
def walk (path : String) : FSTree → List (String × List String × List String)
  | .node _ files subdirs =>
    (path, subdirs.map FSTree.name, files) :: walkList path subdirs

def walkList (path : String) : List FSTree → List (String × List String × List String)
  | [] => []
  | d :: ds => walk (pjoin path d.name) d ++ walkList path ds

end

mutual

/-- The directories of a tree by their component path inside the tree
(root node has path `[]`), with each directory's subdir names and files. -/
def dirsOf : FSTree → List (List String × List String × List String)
  | .node _ files subdirs =>
    ([], subdirs.map FSTree.name, files) :: dirsOfList subdirs

def dirsOfList : List FSTree → List (List String × List String × List String)
  | [] => []
  | d :: ds => (dirsOf d).map (fun e => (d.name :: e.1, e.2)) ++ dirsOfList ds

end

/-- Well-formed directory tree: sibling names are distinct and every entry
name is a valid filesystem name, recursively.  True of any real filesystem. -/
inductive WF : FSTree → Prop where
  | mk (name : String) (files : List String) (subdirs : List FSTree)
      (hnd : (subdirs.map FSTree.name).Nodup)
      (hvn : ∀ d ∈ subdirs, validName d.name)
      (hsub : ∀ d ∈ subdirs, WF d) :
      WF (.node name files subdirs)

/-- Model of `find_all_images(root_dir)` (source lines 57-69), with the tree
rooted at `root_dir/lnxpcs` passed explicitly: walk it, keep per directory the
files ending in `.png`, and emit `(relpath(walk_root, root_dir), pngs)` for
each directory with at least one match. -/
def find_all_images (root_dir : String) (t : FSTree) : List (String × List String) :=
  (walk (pjoin root_dir REPO_DIR) t).filterMap (fun e =>
    let pngs := e.2.2.filter (fun file => file.endsWith ".png")
    if pngs.isEmpty then none else some (relpath e.1 root_dir, pngs))

/-! ### Walk / dirsOf correspondence -/

mutual

theorem walk_eq_dirsOf (p : String) :
    (t : FSTree) → walk p t = (dirsOf t).map (fun e => (e.1.foldl pjoin p, e.2.1, e.2.2))
  | .node n files subs => by
    rw [walk, dirsOf, List.map_cons]
    rw [walkList_eq_dirsOfList p subs]
    rfl

theorem walkList_eq_dirsOfList (p : String) :
    (ds : List FSTree) →
      walkList p ds = (dirsOfList ds).map (fun e => (e.1.foldl pjoin p, e.2.1, e.2.2))
  | [] => rfl
  | d :: ds => by
    rw [walkList, dirsOfList, List.map_append]
    rw [walk_eq_dirsOf (pjoin p d.name) d, walkList_eq_dirsOfList p ds]
    rw [List.map_map]
    rfl

end

/-- Every key in `dirsOfList ds` starts with the name of one of the roots. -/
theorem dirsOfList_key_shape (ds : List FSTree) :
    ∀ e ∈ dirsOfList ds, ∃ d ∈ ds, ∃ cs, e.1 = d.name :: cs := by
  induction ds with
  | nil => intro e he; simp [dirsOfList] at he
  | cons d rest ih =>
    intro e he
    rw [dirsOfList] at he
    rcases List.mem_append.mp he with h | h
    · rcases List.mem_map.mp h with ⟨e', _, rfl⟩
      exact ⟨d, by simp, e'.1, rfl⟩
    · rcases ih e h with ⟨d', hd', cs, hcs⟩
      exact ⟨d', by simp [hd'], cs, hcs⟩

mutual

theorem dirsOf_keys_nodup : ∀ (t : FSTree), WF t → ((dirsOf t).map (fun e => e.1)).Nodup
  | .node n files subs, h => by
    cases h with
    | mk _ _ _ hnd hvn hsub =>
      rw [dirsOf, List.map_cons]
      refine List.nodup_cons.mpr ⟨?_, dirsOfList_keys_nodup subs hnd hsub⟩
      intro hc
      rcases List.mem_map.mp hc with ⟨e, he, hk⟩
      rcases dirsOfList_key_shape subs e he with ⟨d, _, cs, hcs⟩
      rw [hcs] at hk
      exact List.cons_ne_nil _ _ hk

theorem dirsOfList_keys_nodup : ∀ (ds : List FSTree), (ds.map FSTree.name).Nodup →
    (∀ d ∈ ds, WF d) → ((dirsOfList ds).map (fun e => e.1)).Nodup
  | [], _, _ => by simp [dirsOfList]
  | d :: ds, hnd, hwf => by
    rw [dirsOfList, List.map_append]
    have hndd : (ds.map FSTree.name).Nodup := (List.nodup_cons.mp (by simpa using hnd)).2
    have hdnot : d.name ∉ ds.map FSTree.name := (List.nodup_cons.mp (by simpa using hnd)).1
    apply List.Nodup.append
    · rw [List.map_map]
      have heq : ((fun (e : List String × List String × List String) => e.1) ∘
          (fun (e : List String × List String × List String) =>
            ((d.name :: e.1 : List String), e.2))) =
          (List.cons d.name) ∘ (fun e => e.1) := rfl
      rw [heq, ← List.map_map]
      exact (dirsOf_keys_nodup d (hwf d (by simp))).map
        (fun x y hxy => by simpa using hxy)
    · exact dirsOfList_keys_nodup ds hndd (fun x hx => hwf x (by simp [hx]))
    · intro k hk hk'
      rcases List.mem_map.mp hk with ⟨a, ha, rfl⟩
      rcases List.mem_map.mp ha with ⟨e, he, rfl⟩
      rcases List.mem_map.mp hk' with ⟨e', he', hke⟩
      rcases dirsOfList_key_shape ds e' he' with ⟨d', hd', cs, hcs⟩
      rw [hcs] at hke
      have hname : d'.name = d.name := by
        have := congrArg List.head? hke
        simpa using this
      exact hdnot (hname ▸ List.mem_map.mpr ⟨d', hd', rfl⟩)

end

mutual

theorem dirsOf_keys_valid : ∀ (t : FSTree), WF t →
    ∀ e ∈ dirsOf t, ∀ n ∈ e.1, validName n
  | .node nm files subs, h => by
    cases h with
    | mk _ _ _ hnd hvn hsub =>
      intro e he n hn
      rw [dirsOf] at he
      rcases List.mem_cons.mp he with rfl | he'
      · simp at hn
      · exact dirsOfList_keys_valid subs hvn hsub e he' n hn

theorem dirsOfList_keys_valid : ∀ (ds : List FSTree), (∀ d ∈ ds, validName d.name) →
    (∀ d ∈ ds, WF d) → ∀ e ∈ dirsOfList ds, ∀ n ∈ e.1, validName n
  | [], _, _ => by intro e he; simp [dirsOfList] at he
  | d :: ds, hvn, hwf => by
    intro e he n hn
    rw [dirsOfList] at he
    rcases List.mem_append.mp he with h | h
    · rcases List.mem_map.mp h with ⟨e', he', rfl⟩
      rcases List.mem_cons.mp hn with rfl | hn'
      · exact hvn d (by simp)
      · exact dirsOf_keys_valid d (hwf d (by simp)) e' he' n hn'
    · exact dirsOfList_keys_valid ds (fun x hx => hvn x (by simp [hx]))
        (fun x hx => hwf x (by simp [hx])) e h n hn

end

/-- Filtering a `filterMap`-produced keyed list at the key of a source element
yields exactly that element's contribution, when keys are distinct. -/
theorem filter_filterMap_key {α K V : Type} [DecidableEq K]
    (L : List α) (G : α → Option (K × V)) (key : α → K)
    (hkey : ∀ a : α, ∀ g ∈ G a, (g : K × V).1 = key a)
    (hnd : (L.map key).Nodup) :
    ∀ e ∈ L, (L.filterMap G).filter (fun g => g.1 = key e) = (G e).toList := by
  induction L with
  | nil => intro e he; simp at he
  | cons a rest ih =>
    intro e he
    rw [List.map_cons] at hnd
    have hcons := List.nodup_cons.mp hnd
    have hnotin : key a ∉ rest.map key := hcons.1
    have hndr : (rest.map key).Nodup := hcons.2
    have hrest_ne : ∀ g ∈ rest.filterMap G, ¬((g : K × V).1 = key a) := by
      intro g hg
      rcases List.mem_filterMap.mp hg with ⟨b, hb, hgb⟩
      rw [hkey b g (Option.mem_def.mpr hgb)]
      intro hc
      exact hnotin (hc ▸ List.mem_map.mpr ⟨b, hb, rfl⟩)
    rw [List.filterMap_cons]
    rcases List.mem_cons.mp he with rfl | he'
    · cases hga : G e with
      | none =>
        exact List.filter_eq_nil_iff.mpr (fun g hg => by
          simpa using hrest_ne g hg)
      | some g =>
        show (g :: rest.filterMap G).filter (fun x => x.1 = key e) = [g]
        rw [List.filter_cons]
        rw [if_pos (by simpa using hkey e g (Option.mem_def.mpr hga))]
        have hz : (rest.filterMap G).filter (fun x : K × V => x.1 = key e) = [] :=
          List.filter_eq_nil_iff.mpr (fun g' hg' => by simpa using hrest_ne g' hg')
        rw [hz]
    · have hkne : key a ≠ key e := by
        intro hc
        exact hnotin (hc ▸ List.mem_map.mpr ⟨e, he', rfl⟩)
      cases hga : G a with
      | none => exact ih hndr e he'
      | some g =>
        show (g :: rest.filterMap G).filter (fun x => x.1 = key e) = (G e).toList
        rw [List.filter_cons]
        rw [if_neg (by
          simp only [decide_eq_true_eq]
          rw [hkey a g (Option.mem_def.mpr hga)]
          exact hkne)]
        exact ih hndr e he'

/-- C2: for every directory under `root_dir/lnxpcs` holding at least one
`.png` file, the scanner emits exactly one group, pairing the directory's
path relative to `root_dir` with exactly the matching filenames; for a
directory with no matching file, no group is emitted. -/
theorem find_all_images_groups (rc : List String) (t : FSTree) (wr : String)
    (ds fs : List String) (hrc : ∀ n ∈ rc, validName n) (hwf : WF t)
    (hmem : (wr, ds, fs) ∈ walk (pjoin (mkAbs rc) REPO_DIR) t) :
    (find_all_images (mkAbs rc) t).filter
        (fun g => g.1 = relpath wr (mkAbs rc)) =
      if (fs.filter (fun file => file.endsWith ".png")).isEmpty then []
      else [(relpath wr (mkAbs rc), fs.filter (fun file => file.endsWith ".png"))] := by
  have hrepo : validName REPO_DIR := by decide
  have hvalid_base : ∀ n ∈ rc ++ [REPO_DIR], validName n := by
    intro n hn
    rcases List.mem_append.mp hn with h | h
    · exact hrc n h
    · rw [List.mem_singleton.mp h]; exact hrepo
  have hbase : pjoin (mkAbs rc) REPO_DIR = mkAbs (rc ++ [REPO_DIR]) :=
    pjoin_mkAbs rc _ hrc hrepo
  have hwalk : walk (pjoin (mkAbs rc) REPO_DIR) t =
      (dirsOf t).map
        (fun e => (e.1.foldl pjoin (mkAbs (rc ++ [REPO_DIR])), e.2.1, e.2.2)) := by
    rw [hbase, walk_eq_dirsOf]
  have hpath : ∀ e ∈ dirsOf t,
      e.1.foldl pjoin (mkAbs (rc ++ [REPO_DIR])) = mkAbs (rc ++ [REPO_DIR] ++ e.1) :=
    fun e he => foldl_pjoin_mkAbs e.1 (rc ++ [REPO_DIR]) hvalid_base
      (dirsOf_keys_valid t hwf e he)
  have hkeyval : ∀ e ∈ dirsOf t,
      relpath (mkAbs (rc ++ [REPO_DIR] ++ e.1)) (mkAbs rc) = joinComps (REPO_DIR :: e.1) := by
    intro e he
    rw [List.append_assoc]
    exact relpath_mkAbs rc ([REPO_DIR] ++ e.1) hrc
      (by
        intro n hn
        rcases List.mem_append.mp hn with h | h
        · rw [List.mem_singleton.mp h]; exact hrepo
        · exact dirsOf_keys_valid t hwf e he n h)
      (by simp)
  have hnd : ((walk (pjoin (mkAbs rc) REPO_DIR) t).map
      (fun a => relpath a.1 (mkAbs rc))).Nodup := by
    rw [hwalk, List.map_map]
    rw [List.map_congr_left (g := fun e => joinComps (REPO_DIR :: e.1)) (by
      intro e he
      show relpath (e.1.foldl pjoin (mkAbs (rc ++ [REPO_DIR]))) (mkAbs rc) =
        joinComps (REPO_DIR :: e.1)
      rw [hpath e he]
      exact hkeyval e he)]
    rw [show (fun (e : List String × List String × List String) =>
        joinComps (REPO_DIR :: e.1)) =
      (fun k => joinComps (REPO_DIR :: k)) ∘ (fun e => e.1) from rfl]
    rw [← List.map_map]
    refine (dirsOf_keys_nodup t hwf).map_on ?_
    intro x hx y hy hxy
    rcases List.mem_map.mp hx with ⟨ex, hex, rfl⟩
    rcases List.mem_map.mp hy with ⟨ey, hey, rfl⟩
    have hva : ∀ n ∈ REPO_DIR :: ex.1, validName n := by
      intro n hn
      rcases List.mem_cons.mp hn with rfl | h
      · exact hrepo
      · exact dirsOf_keys_valid t hwf ex hex n h
    have hvb : ∀ n ∈ REPO_DIR :: ey.1, validName n := by
      intro n hn
      rcases List.mem_cons.mp hn with rfl | h
      · exact hrepo
      · exact dirsOf_keys_valid t hwf ey hey n h
    have := joinComps_injOn hva hvb hxy
    exact (List.cons.injEq _ _ _ _ ▸ this).2
  have hmain := filter_filterMap_key (walk (pjoin (mkAbs rc) REPO_DIR) t)
    (fun e =>
      let pngs := e.2.2.filter (fun file => file.endsWith ".png")
      if pngs.isEmpty then none else some (relpath e.1 (mkAbs rc), pngs))
    (fun a => relpath a.1 (mkAbs rc))
    (by
      intro a g hg
      simp only at hg
      by_cases hif : (a.2.2.filter (fun file => file.endsWith ".png")).isEmpty
      · rw [if_pos hif] at hg; cases hg
      · rw [if_neg hif] at hg
        have := Option.mem_def.mp hg
        cases this
        rfl)
    hnd (wr, ds, fs) hmem
  cases hif : (fs.filter (fun file => file.endsWith ".png")).isEmpty with
  | true =>
    rw [if_pos rfl]
    have : (fun e : String × List String × List String =>
        let pngs := e.2.2.filter (fun file => file.endsWith ".png")
        if pngs.isEmpty then none
        else some (relpath e.1 (mkAbs rc), pngs)) (wr, ds, fs) = none := by
      simp only [hif]
      rfl
    rw [this] at hmain
    exact hmain
  | false =>
    rw [if_neg (by simp)]
    have : (fun e : String × List String × List String =>
        let pngs := e.2.2.filter (fun file => file.endsWith ".png")
        if pngs.isEmpty then none
        else some (relpath e.1 (mkAbs rc), pngs)) (wr, ds, fs) =
        some (relpath wr (mkAbs rc), fs.filter (fun file => file.endsWith ".png")) := by
      simp only [hif]
      rfl
    rw [this] at hmain
    exact hmain

/-! ### Remote service model (imgurpython client as an oracle) -/

/-- `ImgurClientRateLimitError`: opaque exception value. -/
structure RLE where
  info : String
deriving DecidableEq

/-- The fields of the dict passed to `create_album`. -/
structure CreateAlbumReq where
  title : String
  privacy : String
  description : String
deriving DecidableEq

/-- The fields of the config dict passed to `upload_from_path`. -/
structure UploadReq where
  title : String
  description : String
  album : String
deriving DecidableEq

/-- A remote image entry as the script reads it. -/
structure Image where
  title : String
  link : String
deriving DecidableEq

/-- A remote album as the script reads it (full representation). -/
structure Album where
  id : String
  title : String
  deletehash : String
  link : String
  images : List Image
deriving DecidableEq

/-- Result of the pin exchange (`client.authorize(pin, 'pin')`). -/
structure Credentials where
  access_token : String
  refresh_token : String
deriving DecidableEq

/-- Oracle for the remote service: determines what each remote call returns.
Album/image calls may raise a rate-limit error. -/
structure Client where
  create_album : CreateAlbumReq → Except RLE String
  get_album : String → Except RLE Album
  get_account_albums : String → Except RLE (List Album)
  upload_from_path : String → UploadReq → Except RLE String
  get_auth_url : String → String
  authorize : String → String → Credentials
  credits : String

/-- Configuration: DEFAULT key/values plus named sections
(model of `configparser.ConfigParser`). -/
structure Config where
  defaults : List (String × String)
  sections : List (String × List (String × String))
deriving DecidableEq

/-- Observable events of a run: remote calls, console output and
configuration-file writes. -/
inductive Event where
  | createAlbumCall : CreateAlbumReq → Event
  | getAlbumCall : String → Event
  | getAccountAlbumsCall : String → Event
  | uploadCall : String → UploadReq → Event
  | authorizeCall : String → String → Event
  | output : String → Event
  | writeConfig : Config → Event
deriving DecidableEq

instance {ε α : Type} [DecidableEq ε] [DecidableEq α] : DecidableEq (Except ε α) :=
  fun a b =>
    match a, b with
    | Except.error e, Except.error e' =>
      if h : e = e' then isTrue (by rw [h])
      else isFalse (fun hc => by cases hc; exact h rfl)
    | Except.error _, Except.ok _ => isFalse (fun hc => by cases hc)
    | Except.ok _, Except.error _ => isFalse (fun hc => by cases hc)
    | Except.ok x, Except.ok y =>
      if h : x = y then isTrue (by rw [h])
      else isFalse (fun hc => by cases hc; exact h rfl)

/-- Remote calls among the events (operations that reach the service). -/
def Event.isRemote : Event → Bool
  | .createAlbumCall _ => true
  | .getAlbumCall _ => true
  | .getAccountAlbumsCall _ => true
  | .uploadCall _ _ => true
  | .authorizeCall _ _ => true
  | .output _ => false
  | .writeConfig _ => false

def Event.isCreateAlbum : Event → Bool
  | .createAlbumCall _ => true
  | _ => false

def Event.isAuthorize : Event → Bool
  | .authorizeCall _ _ => true
  | _ => false

def Event.isUpload : Event → Bool
  | .uploadCall _ _ => true
  | _ => false

/-! ### Config Store model (`configparser`) -/

def lookupKV (l : List (String × String)) (k : String) : Option String :=
  (l.find? (fun p => p.1 = k)).map (fun p => p.2)

def setKV (l : List (String × String)) (k v : String) : List (String × String) :=
  if (l.find? (fun p => p.1 = k)).isSome then
    l.map (fun p => if p.1 = k then (k, v) else p)
  else l ++ [(k, v)]

/-- `config.get(section, key)`: value in the section, falling back to the
DEFAULT section; `none` models the raised `NoSectionError`/`NoOptionError`. -/
def Config.getOpt (c : Config) (sec key : String) : Option String :=
  if sec = "DEFAULT" then lookupKV c.defaults key
  else
    match c.sections.find? (fun p => p.1 = sec) with
    | none => none
    | some p =>
      match lookupKV p.2 key with
      | some v => some v
      | none => lookupKV c.defaults key

/-- `section in config` (section membership). -/
def Config.hasSection (c : Config) (sec : String) : Bool :=
  (c.sections.find? (fun p => p.1 = sec)).isSome

/-- `key in config[section]`: `configparser.has_option`, which also consults
the DEFAULT section. -/
def Config.hasOption (c : Config) (sec key : String) : Bool :=
  match c.sections.find? (fun p => p.1 = sec) with
  | none => false
  | some p => (lookupKV p.2 key).isSome || (lookupKV c.defaults key).isSome

/-- `config.add_section(section)` (callers guard against duplicates). -/
def Config.addSection (c : Config) (sec : String) : Config :=
  ⟨c.defaults, c.sections ++ [(sec, [])]⟩

/-- `config.set(section, key, value)`; `none` models the raised
`NoSectionError` for a missing section. -/
def Config.setOpt (c : Config) (sec key v : String) : Option Config :=
  match c.sections.find? (fun p => p.1 = sec) with
  | none => none
  | some _ => some ⟨c.defaults,
      c.sections.map (fun p => if p.1 = sec then (p.1, setKV p.2 key v) else p)⟩

/-- Value stored in the section proper (no DEFAULT fallback); used to state
what Auth Flow writes into the `tokens` section. -/
def Config.inSection (c : Config) (sec key : String) : Option String :=
  match c.sections.find? (fun p => p.1 = sec) with
  | none => none
  | some p => lookupKV p.2 key

/-! ### Auth Flow (`request_new_token`, source lines 38-54) -/

/-- Model of `request_new_token(config, client_id, client_secret)`: build a
token-less client, show the auth URL, read a pin (supplied as the `pin`
oracle), exchange it, store both tokens and rewrite the config file.
`none` models the `NoSectionError` raised by `config.set` when the `tokens`
section is missing. -/
def request_new_token (client : Client) (config : Config) (pin : String) :
    Option (Config × List Event) :=
  match config.setOpt TOKENS_SECTION "access" (client.authorize pin "pin").access_token with
  | none => none
  | some c1 =>
    match c1.setOpt TOKENS_SECTION "refresh" (client.authorize pin "pin").refresh_token with
    | none => none
    | some c2 =>
      some (c2,
        [Event.output ("Please enter the pin you received from " ++ client.get_auth_url "pin"),
         Event.authorizeCall pin "pin",
         Event.writeConfig c2,
         Event.output "Updated config for future use"])

/-! ### Album Reconciler (source lines 72-98 and 125-149) -/

/-- Python-dict lookup on the `all_albums` mapping (`title in all_albums`,
`all_albums[title]`). -/
def dlookup (d : List (String × Album)) (k : String) : Option Album :=
  (d.find? (fun p => p.1 = k)).map (fun p => p.2)

/-- Python-dict insertion `all_albums[title] = album`. -/
def dinsert (d : List (String × Album)) (k : String) (v : Album) :
    List (String × Album) :=
  if (d.find? (fun p => p.1 = k)).isSome then
    d.map (fun p => if p.1 = k then (k, v) else p)
  else d ++ [(k, v)]

/-- Model of `get_album(client, all_albums, title, album_url)` (lines 72-94):
reuse the cached album, otherwise create a hidden album, fetch its full
representation and cache it.  Returns the album and the updated mapping,
plus the remote calls made. -/
def get_album (client : Client) (all_albums : List (String × Album))
    (title album_url : String) :
    Except RLE (Album × List (String × Album)) × List Event :=
  match dlookup all_albums title with
  | some album => (Except.ok (album, all_albums), [])
  | none =>
    match client.create_album ⟨title, "hidden", "Album of images from " ++ album_url⟩ with
    | Except.error e =>
        (Except.error e,
         [Event.createAlbumCall ⟨title, "hidden", "Album of images from " ++ album_url⟩])
    | Except.ok album_id =>
      match client.get_album album_id with
      | Except.error e =>
          (Except.error e,
           [Event.createAlbumCall ⟨title, "hidden", "Album of images from " ++ album_url⟩,
            Event.getAlbumCall album_id])
      | Except.ok album =>
          (Except.ok (album, dinsert all_albums title album),
           [Event.createAlbumCall ⟨title, "hidden", "Album of images from " ++ album_url⟩,
            Event.getAlbumCall album_id])

/-- Model of `get_album_image(album, file_path)` (lines 97-98): first image of
the album whose title equals `file_path`, if any. -/
def get_album_image (album : Album) (file_path : String) : Option Image :=
  (album.images.filter (fun image => image.title = file_path)).head?

/-- The album source URL derived on line 127:
`ROOT_URL + album_imgur_title.replace(REPO_DIR, "lnxpcs/tree/master")`.
`replaceAll` models Python `str.replace` (all occurrences, left to right). -/
def replaceAll (s pat rep : List Char) (fuel : Nat) : List Char :=
  match fuel with
  | 0 => s
  | fuel + 1 =>
    match s with
    | [] => []
    | c :: rest =>
      if pat ≠ [] ∧ s.take pat.length = pat then
        rep ++ replaceAll (s.drop pat.length) pat rep fuel
      else c :: replaceAll rest pat rep fuel

def strReplace (s pat rep : String) : String :=
  ⟨replaceAll s.toList pat.toList rep.toList s.toList.length⟩

def album_git_url (album_imgur_title : String) : String :=
  ROOT_URL ++ strReplace album_imgur_title REPO_DIR "lnxpcs/tree/master"

/-- One iteration of the inner loop of `main` (lines 131-146) for one file. -/
def handle_image (client : Client) (path_to_repo_parent album_imgur_title
    album_git_url_v : String) (album : Album) (png : String) :
    Except RLE Unit × List Event :=
  match get_album_image album (pjoin album_imgur_title png) with
  | some _ =>
      (Except.ok (),
       [Event.output ("\tHandling image " ++ (album_git_url_v ++ "/" ++ png))])
  | none =>
    match client.upload_from_path (pjoin (pjoin path_to_repo_parent album_imgur_title) png)
        ⟨pjoin album_imgur_title png,
         "A mirror of " ++ (album_git_url_v ++ "/" ++ png), album.deletehash⟩ with
    | Except.error e =>
        (Except.error e,
         [Event.output ("\tHandling image " ++ (album_git_url_v ++ "/" ++ png)),
          Event.uploadCall (pjoin (pjoin path_to_repo_parent album_imgur_title) png)
            ⟨pjoin album_imgur_title png,
             "A mirror of " ++ (album_git_url_v ++ "/" ++ png), album.deletehash⟩])
    | Except.ok link =>
        (Except.ok (),
         [Event.output ("\tHandling image " ++ (album_git_url_v ++ "/" ++ png)),
          Event.uploadCall (pjoin (pjoin path_to_repo_parent album_imgur_title) png)
            ⟨pjoin album_imgur_title png,
             "A mirror of " ++ (album_git_url_v ++ "/" ++ png), album.deletehash⟩,
          Event.output ("\t\tUploaded to " ++ link)])

/-- The inner `for png in pngs` loop of `main`. -/
def handle_images (client : Client) (parent title url : String) (album : Album) :
    List String → Except RLE Unit × List Event
  | [] => (Except.ok (), [])
  | png :: rest =>
    match handle_image client parent title url album png with
    | (Except.error e, ev) => (Except.error e, ev)
    | (Except.ok _, ev) =>
      match handle_images client parent title url album rest with
      | (r, ev2) => (r, ev ++ ev2)

/-- One iteration of the outer loop of `main` (lines 126-146) for one local
image group. -/
def handle_group (client : Client) (parent : String)
    (all_albums : List (String × Album)) (title : String) (pngs : List String) :
    Except RLE (List (String × Album)) × List Event :=
  match get_album client all_albums title (album_git_url title) with
  | (Except.error e, ev) => (Except.error e, ev)
  | (Except.ok (album, all_albums'), ev) =>
    match handle_images client parent title (album_git_url title) album pngs with
    | (r, ev2) =>
      (match r with
       | Except.error e => Except.error e
       | Except.ok _ => Except.ok all_albums',
       ev ++ [Event.output ("Handling album " ++ album_git_url title),
              Event.output ("Album @ " ++ album.link)] ++ ev2)

/-- The whole `for album_imgur_title, pngs in images` loop (lines 126-146). -/
def reconcile_loop (client : Client) (parent : String) :
    List (String × List String) → List (String × Album) →
      Except RLE Unit × List Event
  | [], _ => (Except.ok (), [])
  | (title, pngs) :: rest, all_albums =>
    match handle_group client parent all_albums title pngs with
    | (Except.error e, ev) => (Except.error e, ev)
    | (Except.ok all_albums', ev) =>
      match reconcile_loop client parent rest all_albums' with
      | (r, ev2) => (r, ev ++ ev2)

/-- The `try/except ImgurClientRateLimitError` wrapper of the loop
(lines 125-149): on a rate-limit error, print the remaining credits and
re-raise the same exception. -/
def reconcile (client : Client) (parent : String)
    (images : List (String × List String)) (all_albums : List (String × Album)) :
    Except RLE Unit × List Event :=
  match reconcile_loop client parent images all_albums with
  | (Except.ok _, ev) => (Except.ok (), ev)
  | (Except.error e, ev) =>
      (Except.error e, ev ++ [Event.output ("Passed limit " ++ client.credits)])

/-- Pre-fetching of all account albums with their image lists (lines 120-123):
`{album.title: client.get_album(album.id) for album in get_account_albums(user)}`.
Later duplicates of a title overwrite earlier ones, as in a dict comprehension. -/
def fetch_albums_fold (client : Client) :
    List Album → List (String × Album) →
      Except RLE (List (String × Album)) × List Event
  | [], acc => (Except.ok acc, [])
  | a :: rest, acc =>
    match client.get_album a.id with
    | Except.error e => (Except.error e, [Event.getAlbumCall a.id])
    | Except.ok full =>
      match fetch_albums_fold client rest (dinsert acc a.title full) with
      | (r, ev) => (r, Event.getAlbumCall a.id :: ev)

def fetch_all_albums (client : Client) (user : String) :
    Except RLE (List (String × Album)) × List Event :=
  match client.get_account_albums user with
  | Except.error e => (Except.error e, [Event.getAccountAlbumsCall user])
  | Except.ok albums =>
    match fetch_albums_fold client albums [] with
    | (r, ev) => (r, Event.getAccountAlbumsCall user :: ev)

/-! ### `main` and the `__main__` entry point -/

/-- How a run ends. -/
inductive Outcome where
  | finished : Outcome
  | exited : Nat → Outcome
  | crashed : Outcome
  | raised : RLE → Outcome
deriving DecidableEq

/-- Model of `main(config, path_to_repo)` (lines 101-149).  The filesystem is
given by the `isdir` oracle plus `tree`, the directory tree rooted at
`path_to_repo` (equivalently at `path_to_repo_parent/lnxpcs`).  A `none` from
a `config.get` models the uncaught `configparser` exception (`crashed`). -/
def main (client : Client) (config : Config) (path_to_repo : String)
    (isdir : String → Bool) (tree : FSTree) : Outcome × List Event :=
  match config.getOpt CLIENT_SECTION "id", config.getOpt CLIENT_SECTION "secret",
      config.getOpt TOKENS_SECTION "access", config.getOpt TOKENS_SECTION "refresh" with
  | some _, some _, some _, some _ =>
    if basename path_to_repo ≠ REPO_DIR then
      (Outcome.exited 1,
       [Event.output ("Please provide a path to a lnxpcs directory. Given " ++ path_to_repo)])
    else if !isdir path_to_repo then
      (Outcome.exited 1,
       [Event.output ("Please provide a path to an EXISTING lnxpcs directory. Given " ++ path_to_repo)])
    else
      let path_to_repo_parent := parentPath path_to_repo
      let images := find_all_images path_to_repo_parent tree
      match config.getOpt "DEFAULT" "user" with
      | none => (Outcome.crashed, [])
      | some user =>
        match fetch_all_albums client user with
        | (Except.error e, ev) => (Outcome.raised e, ev)
        | (Except.ok all_albums, ev) =>
          match reconcile client path_to_repo_parent images all_albums with
          | (Except.ok _, ev2) => (Outcome.finished, ev ++ ev2)
          | (Except.error e, ev2) => (Outcome.raised e, ev ++ ev2)
  | _, _, _, _ => (Outcome.crashed, [])

/-- The tokens check on line 183:
`TOKENS_SECTION in config and "refresh" in config[TOKENS_SECTION] and
"access" in config[TOKENS_SECTION]`. -/
def tokensPresent (config : Config) : Bool :=
  config.hasSection TOKENS_SECTION &&
    config.hasOption TOKENS_SECTION "refresh" &&
    config.hasOption TOKENS_SECTION "access"

/-- Model of the `__main__` block (lines 152-189): validate the client
configuration and user, then run `main` directly when both tokens are
present, otherwise run the Auth Flow first (adding the `tokens` section when
missing) and then `main` on the updated configuration. -/
def entry_point (client : Client) (config : Config) (repo_dir_arg pin : String)
    (isdir : String → Bool) (tree : FSTree) : Outcome × List Event :=
  if !config.hasSection CLIENT_SECTION then
    (Outcome.exited 1,
     [Event.output "You need a client configuration to access imgur. Get one at https://apidocs.imgur.com/"])
  else if !(config.hasOption CLIENT_SECTION "id" && config.hasOption CLIENT_SECTION "secret") then
    (Outcome.exited 1, [Event.output "Client config incomplete!"])
  else
    match config.getOpt "DEFAULT" "user" with
    | none =>
      (Outcome.exited 1,
       [Event.output "Please add an imgur user to the default section of the configuration"])
    | some _ =>
      if tokensPresent config then
        main client config repo_dir_arg isdir tree
      else
        match request_new_token client
            (if !config.hasSection TOKENS_SECTION then
              config.addSection TOKENS_SECTION else config) pin with
        | none => (Outcome.crashed, [])
        | some (config2, authEv) =>
          match main client config2 repo_dir_arg isdir tree with
          | (o, mainEv) => (o, authEv ++ mainEv)

/-! ### Loop accounting lemmas -/

/-- The upload-call events of a trace whose request title is `t`. -/
def uploadsWithTitle (ev : List Event) (t : String) : List Event :=
  ev.filter (fun e => match e with
    | Event.uploadCall _ req => req.title = t
    | _ => false)

theorem uploadsWithTitle_append (ev1 ev2 : List Event) (t : String) :
    uploadsWithTitle (ev1 ++ ev2) t = uploadsWithTitle ev1 t ++ uploadsWithTitle ev2 t :=
  List.filter_append _ _

theorem string_toList_inj {a b : String} (h : a.toList = b.toList) : a = b := by
  cases a; cases b; exact congrArg String.mk h

/-- On the loop's inputs, `os.path.join(title, p)` is plain concatenation. -/
theorem pjoin_eq_concat (title p : String)
    (ht1 : title ≠ "") (ht2 : title.toList.getLast? ≠ some '/')
    (hp : p.toList.head? ≠ some '/') : pjoin title p = title ++ "/" ++ p := by
  unfold pjoin
  rw [if_neg hp, if_neg (by push_neg; exact ⟨ht1, ht2⟩)]

theorem pjoin_title_inj {title p q : String}
    (ht1 : title ≠ "") (ht2 : title.toList.getLast? ≠ some '/')
    (hp : p.toList.head? ≠ some '/') (hq : q.toList.head? ≠ some '/')
    (h : pjoin title p = pjoin title q) : p = q := by
  rw [pjoin_eq_concat title p ht1 ht2 hp, pjoin_eq_concat title q ht1 ht2 hq] at h
  have := congrArg String.toList h
  rw [toList_append, toList_append] at this
  exact string_toList_inj (List.append_cancel_left this)

/-- Every upload call issued by the inner loop is for one of its files, with
title the relative path, description the mirror text for the derived source
URL, and the album's deletion handle; and only for files whose title was not
found in the album's image list. -/
theorem handle_images_upload_shape (client : Client) (parent title url : String)
    (album : Album) :
    ∀ (pngs : List String) (r : Except RLE Unit) (ev : List Event),
    handle_images client parent title url album pngs = (r, ev) →
    ∀ path req, Event.uploadCall path req ∈ ev →
    ∃ p ∈ pngs,
      req = ⟨pjoin title p, "A mirror of " ++ (url ++ "/" ++ p), album.deletehash⟩ ∧
      path = pjoin (pjoin parent title) p ∧
      get_album_image album (pjoin title p) = none := by
  intro pngs
  induction pngs with
  | nil =>
    intro r ev h path req hmem
    rw [handle_images] at h
    cases h
    simp at hmem
  | cons png rest ih =>
    intro r ev h path req hmem
    rw [handle_images] at h
    rcases h1 : handle_image client parent title url album png with ⟨r1, ev1⟩
    rw [h1] at h
    have hshape1 : ∀ path' req', Event.uploadCall path' req' ∈ ev1 →
        req' = ⟨pjoin title png, "A mirror of " ++ (url ++ "/" ++ png), album.deletehash⟩ ∧
        path' = pjoin (pjoin parent title) png ∧
        get_album_image album (pjoin title png) = none := by
      intro path' req' hmem'
      rw [handle_image] at h1
      rcases hfind : get_album_image album (pjoin title png) with _ | img
      · rw [hfind] at h1
        rcases hup : client.upload_from_path (pjoin (pjoin parent title) png)
            ⟨pjoin title png, "A mirror of " ++ (url ++ "/" ++ png), album.deletehash⟩
          with e | link
        · rw [hup] at h1
          cases h1
          rcases List.mem_cons.mp hmem' with hc | hc
          · cases hc
          · rcases List.mem_cons.mp hc with hc' | hc'
            · cases hc'; exact ⟨rfl, rfl, rfl⟩
            · simp at hc'
        · rw [hup] at h1
          cases h1
          rcases List.mem_cons.mp hmem' with hc | hc
          · cases hc
          · rcases List.mem_cons.mp hc with hc' | hc'
            · cases hc'; exact ⟨rfl, rfl, rfl⟩
            · rcases List.mem_cons.mp hc' with hc'' | hc''
              · cases hc''
              · simp at hc''
      · rw [hfind] at h1
        cases h1
        rcases List.mem_cons.mp hmem' with hc | hc
        · cases hc
        · simp at hc
    cases r1 with
    | error e =>
      cases h
      rcases hshape1 path req hmem with ⟨hr, hp, hf⟩
      exact ⟨png, by simp, hr, hp, hf⟩
    | ok u =>
      rcases h2 : handle_images client parent title url album rest with ⟨r2, ev2⟩
      rw [h2] at h
      cases h
      rcases List.mem_append.mp hmem with hm | hm
      · rcases hshape1 path req hm with ⟨hr, hp, hf⟩
        exact ⟨png, by simp, hr, hp, hf⟩
      · rcases ih _ _ h2 path req hm with ⟨p, hp1, hp2⟩
        exact ⟨p, by simp [hp1], hp2⟩

/-- `get_album_image` finds nothing exactly when no image entry has the
given title. -/
theorem get_album_image_none_iff (album : Album) (s : String) :
    get_album_image album s = none ↔
      album.images.any (fun img => img.title = s) = false := by
  unfold get_album_image
  rw [List.head?_eq_none_iff, List.filter_eq_nil_iff]
  constructor
  · intro h
    rw [Bool.eq_false_iff]
    intro hc
    rcases List.any_eq_true.mp hc with ⟨img, hmem, himg⟩
    exact h img hmem (by simpa using himg)
  · intro h img hmem hc
    rw [Bool.eq_false_iff] at h
    exact h (List.any_eq_true.mpr ⟨img, hmem, hc⟩)

/-- No upload issued by the loop on `rest` carries the relative title of a
file not in `rest`. -/
theorem uploadsWithTitle_nil_of_not_mem (client : Client) (parent title url : String)
    (album : Album) (rest : List String) (r : Except RLE Unit) (ev : List Event)
    (h : handle_images client parent title url album rest = (r, ev))
    (png0 : String) (hpn : png0 ∉ rest)
    (hvp : ∀ p ∈ rest, p.toList.head? ≠ some '/')
    (hp0 : png0.toList.head? ≠ some '/')
    (ht1 : title ≠ "") (ht2 : title.toList.getLast? ≠ some '/') :
    uploadsWithTitle ev (pjoin title png0) = [] := by
  rw [uploadsWithTitle, List.filter_eq_nil_iff]
  intro e he
  cases e with
  | uploadCall path req =>
    rcases handle_images_upload_shape client parent title url album rest r ev h
      path req he with ⟨p, hpmem, hreq, _, _⟩
    simp only [decide_eq_true_eq]
    intro hc
    rw [hreq] at hc
    have : p = png0 := pjoin_title_inj ht1 ht2 (hvp p hpmem) hp0 hc
    exact hpn (this ▸ hpmem)
  | createAlbumCall r => simp
  | getAlbumCall i => simp
  | getAccountAlbumsCall u => simp
  | authorizeCall a b => simp
  | output s => simp
  | writeConfig c => simp

/-- Full accounting of the inner loop's upload calls per file: exactly one
upload (with relative-path title, mirror description and the album's deletion
handle) when the title is absent from the album's image list, none when it is
present. -/
theorem handle_images_uploads (client : Client) (parent title url : String)
    (album : Album) :
    ∀ (pngs : List String) (r : Except RLE Unit) (ev : List Event),
    handle_images client parent title url album pngs = (r, ev) →
    r = Except.ok () → pngs.Nodup →
    (∀ p ∈ pngs, p.toList.head? ≠ some '/') →
    title ≠ "" → title.toList.getLast? ≠ some '/' →
    ∀ png0 ∈ pngs,
    uploadsWithTitle ev (pjoin title png0) =
      if get_album_image album (pjoin title png0) = none then
        [Event.uploadCall (pjoin (pjoin parent title) png0)
          ⟨pjoin title png0, "A mirror of " ++ (url ++ "/" ++ png0), album.deletehash⟩]
      else [] := by
  intro pngs
  induction pngs with
  | nil =>
    intro r ev h hok hnd hvp ht1 ht2 png0 hmem
    simp at hmem
  | cons png rest ih =>
    intro r ev h hok hnd hvp ht1 ht2 png0 hmem
    rw [handle_images, handle_image] at h
    have hndc := List.nodup_cons.mp hnd
    cases hfind : get_album_image album (pjoin title png) with
    | some img =>
      rw [hfind] at h
      rcases h2 : handle_images client parent title url album rest with ⟨r2, ev2⟩
      rw [h2] at h
      cases h
      rw [uploadsWithTitle_append]
      rcases List.mem_cons.mp hmem with rfl | hm
      · rw [if_neg (by rw [hfind]; simp)]
        rw [show uploadsWithTitle
            [Event.output ("\tHandling image " ++ (url ++ "/" ++ png0))]
            (pjoin title png0) = [] from rfl]
        rw [uploadsWithTitle_nil_of_not_mem client parent title url album rest _ _ h2
          png0 hndc.1 (fun p hp => hvp p (by simp [hp]))
          (hvp png0 (by simp)) ht1 ht2]
        rfl
      · rw [show uploadsWithTitle
            [Event.output ("\tHandling image " ++ (url ++ "/" ++ png))]
            (pjoin title png0) = [] from rfl]
        rw [List.nil_append]
        exact ih _ _ h2 hok hndc.2 (fun p hp => hvp p (by simp [hp])) ht1 ht2 png0 hm
    | none =>
      rw [hfind] at h
      cases hup : client.upload_from_path (pjoin (pjoin parent title) png)
          ⟨pjoin title png, "A mirror of " ++ (url ++ "/" ++ png), album.deletehash⟩ with
      | error e =>
        rw [hup] at h
        cases h
        cases hok
      | ok link =>
        rw [hup] at h
        rcases h2 : handle_images client parent title url album rest with ⟨r2, ev2⟩
        rw [h2] at h
        cases h
        rw [uploadsWithTitle_append]
        rcases List.mem_cons.mp hmem with rfl | hm
        · rw [if_pos hfind]
          rw [show uploadsWithTitle
              [Event.output ("\tHandling image " ++ (url ++ "/" ++ png0)),
               Event.uploadCall (pjoin (pjoin parent title) png0)
                 ⟨pjoin title png0, "A mirror of " ++ (url ++ "/" ++ png0),
                  album.deletehash⟩,
               Event.output ("\t\tUploaded to " ++ link)] (pjoin title png0) =
            [Event.uploadCall (pjoin (pjoin parent title) png0)
              ⟨pjoin title png0, "A mirror of " ++ (url ++ "/" ++ png0),
               album.deletehash⟩] from by
            rw [uploadsWithTitle]
            rw [List.filter_cons, List.filter_cons, List.filter_cons]
            simp]
          rw [uploadsWithTitle_nil_of_not_mem client parent title url album rest _ _ h2
            png0 hndc.1 (fun p hp => hvp p (by simp [hp]))
            (hvp png0 (by simp)) ht1 ht2]
          rw [List.append_nil]
        · have hne : ¬(pjoin title png = pjoin title png0) := by
            intro hc
            have : png = png0 := pjoin_title_inj ht1 ht2
              (hvp png (by simp)) (hvp png0 (by simp [hm])) hc
            exact hndc.1 (this ▸ hm)
          rw [show uploadsWithTitle
              [Event.output ("\tHandling image " ++ (url ++ "/" ++ png)),
               Event.uploadCall (pjoin (pjoin parent title) png)
                 ⟨pjoin title png, "A mirror of " ++ (url ++ "/" ++ png),
                  album.deletehash⟩,
               Event.output ("\t\tUploaded to " ++ link)] (pjoin title png0) = [] from by
            rw [uploadsWithTitle]
            rw [List.filter_cons, List.filter_cons, List.filter_cons]
            simp [hne]]
          rw [List.nil_append]
          exact ih _ _ h2 hok hndc.2 (fun p hp => hvp p (by simp [hp])) ht1 ht2 png0 hm

/-! ### Dict lemmas -/

theorem dlookup_none_find? {d : List (String × Album)} {k : String}
    (h : dlookup d k = none) : d.find? (fun p => p.1 = k) = none := by
  unfold dlookup at h
  exact Option.map_eq_none'.mp h

theorem dinsert_of_absent (d : List (String × Album)) (k : String) (v : Album)
    (h : dlookup d k = none) : dinsert d k v = d ++ [(k, v)] := by
  unfold dinsert
  rw [dlookup_none_find? h]
  rfl

theorem dlookup_append_self (d : List (String × Album)) (k : String) (v : Album)
    (h : dlookup d k = none) : dlookup (d ++ [(k, v)]) k = some v := by
  unfold dlookup
  rw [List.find?_append, dlookup_none_find? h]
  simp

/-! ### Trace-shape lemmas for the loop -/

theorem handle_images_no_create (client : Client) (parent title url : String)
    (album : Album) :
    ∀ (pngs : List String) (r : Except RLE Unit) (ev : List Event),
    handle_images client parent title url album pngs = (r, ev) →
    ev.filter Event.isCreateAlbum = [] := by
  intro pngs
  induction pngs with
  | nil =>
    intro r ev h
    rw [handle_images] at h
    cases h
    rfl
  | cons png rest ih =>
    intro r ev h
    rw [handle_images, handle_image] at h
    cases hfind : get_album_image album (pjoin title png) with
    | some img =>
      rw [hfind] at h
      rcases h2 : handle_images client parent title url album rest with ⟨r2, ev2⟩
      rw [h2] at h
      cases h
      rw [List.filter_append]
      rw [ih _ _ h2]
      rfl
    | none =>
      rw [hfind] at h
      cases hup : client.upload_from_path (pjoin (pjoin parent title) png)
          ⟨pjoin title png, "A mirror of " ++ (url ++ "/" ++ png), album.deletehash⟩ with
      | error e =>
        rw [hup] at h
        cases h
        rfl
      | ok link =>
        rw [hup] at h
        rcases h2 : handle_images client parent title url album rest with ⟨r2, ev2⟩
        rw [h2] at h
        cases h
        rw [List.filter_append]
        rw [ih _ _ h2]
        rfl

/-- On a completed inner loop, every file's source URL (album URL plus
filename) is printed. -/
theorem handle_images_prints (client : Client) (parent title url : String)
    (album : Album) :
    ∀ (pngs : List String) (r : Except RLE Unit) (ev : List Event),
    handle_images client parent title url album pngs = (r, ev) →
    r = Except.ok () →
    ∀ png ∈ pngs, Event.output ("\tHandling image " ++ (url ++ "/" ++ png)) ∈ ev := by
  intro pngs
  induction pngs with
  | nil =>
    intro r ev h hok png hmem
    simp at hmem
  | cons png rest ih =>
    intro r ev h hok png0 hmem
    rw [handle_images, handle_image] at h
    cases hfind : get_album_image album (pjoin title png) with
    | some img =>
      rw [hfind] at h
      rcases h2 : handle_images client parent title url album rest with ⟨r2, ev2⟩
      rw [h2] at h
      cases h
      rcases List.mem_cons.mp hmem with rfl | hm
      · simp
      · exact List.mem_append.mpr (Or.inr (ih _ _ h2 hok png0 hm))
    | none =>
      rw [hfind] at h
      cases hup : client.upload_from_path (pjoin (pjoin parent title) png)
          ⟨pjoin title png, "A mirror of " ++ (url ++ "/" ++ png), album.deletehash⟩ with
      | error e =>
        rw [hup] at h
        cases h
        cases hok
      | ok link =>
        rw [hup] at h
        rcases h2 : handle_images client parent title url album rest with ⟨r2, ev2⟩
        rw [h2] at h
        cases h
        rcases List.mem_cons.mp hmem with rfl | hm
        · simp
        · exact List.mem_append.mpr (Or.inr (ih _ _ h2 hok png0 hm))

/-! ### Claim theorems -/

/-- C1: for every file of a group processed by the (successfully completed)
inner loop, if the resolved album's pre-fetched image list contains an entry
whose title equals the file's relative path, no upload call occurs for that
file; otherwise exactly one upload call occurs for it, with title the
relative path and the target album's deletion handle attached. -/
theorem upload_iff_title_absent
    (client : Client) (parent title url : String) (album : Album)
    (pngs : List String) (ev : List Event)
    (hrun : handle_images client parent title url album pngs = (Except.ok (), ev))
    (hnd : pngs.Nodup)
    (hvp : ∀ p ∈ pngs, p.toList.head? ≠ some '/')
    (ht1 : title ≠ "") (ht2 : title.toList.getLast? ≠ some '/') :
    ∀ png ∈ pngs,
      (album.images.any (fun img => img.title = pjoin title png) = true →
        uploadsWithTitle ev (pjoin title png) = []) ∧
      (album.images.any (fun img => img.title = pjoin title png) = false →
        uploadsWithTitle ev (pjoin title png) =
          [Event.uploadCall (pjoin (pjoin parent title) png)
            ⟨pjoin title png, "A mirror of " ++ (url ++ "/" ++ png),
             album.deletehash⟩]) := by
  intro png hmem
  have h := handle_images_uploads client parent title url album pngs _ _ hrun rfl
    hnd hvp ht1 ht2 png hmem
  constructor
  · intro hin
    rw [if_neg (by
      rw [get_album_image_none_iff]
      rw [hin]
      simp)] at h
    exact h
  · intro hout
    rw [if_pos (by rw [get_album_image_none_iff]; exact hout)] at h
    exact h

/-- C3: when the derived album title is already a key of the pre-fetched
album mapping, the reconciler reuses that album (its link is the one
announced, the mapping is unchanged) and issues no album-creation call. -/
theorem album_reuse_no_creation
    (client : Client) (parent : String) (all_albums : List (String × Album))
    (title : String) (pngs : List String) (a : Album)
    (r : Except RLE (List (String × Album))) (ev : List Event)
    (hfound : dlookup all_albums title = some a)
    (hrun : handle_group client parent all_albums title pngs = (r, ev)) :
    ev.filter Event.isCreateAlbum = [] ∧
    ev.take 2 = [Event.output ("Handling album " ++ album_git_url title),
                 Event.output ("Album @ " ++ a.link)] ∧
    (∀ albums', r = Except.ok albums' → albums' = all_albums) := by
  rcases h2 : handle_images client parent title (album_git_url title) a pngs
    with ⟨r2, ev2⟩
  rw [handle_group] at hrun
  simp only [get_album, hfound, h2, List.nil_append] at hrun
  cases hrun
  refine ⟨?_, rfl, ?_⟩
  · rw [List.filter_append]
    rw [handle_images_no_create client parent title (album_git_url title) a pngs _ _ h2]
    rfl
  · intro albums' heq
    cases r2 with
    | error e => cases heq
    | ok u => cases heq; rfl

/-- C4: when the derived title is absent from the album mapping, `get_album`
issues exactly one creation call (hidden privacy, description naming the
derived source URL), fetches the created album's full representation, stores
it in the mapping under the title, and any later `get_album` for the same
title in the run reuses it with no further creation call. -/
theorem album_creation_once
    (client : Client) (all_albums : List (String × Album)) (title url aid : String)
    (album : Album)
    (habsent : dlookup all_albums title = none)
    (hcreate : client.create_album
      ⟨title, "hidden", "Album of images from " ++ url⟩ = Except.ok aid)
    (hfetch : client.get_album aid = Except.ok album) :
    get_album client all_albums title url =
      (Except.ok (album, all_albums ++ [(title, album)]),
       [Event.createAlbumCall ⟨title, "hidden", "Album of images from " ++ url⟩,
        Event.getAlbumCall aid]) ∧
    dlookup (all_albums ++ [(title, album)]) title = some album ∧
    (∀ url2, get_album client (all_albums ++ [(title, album)]) title url2 =
      (Except.ok (album, all_albums ++ [(title, album)]), [])) := by
  have hins : dinsert all_albums title album = all_albums ++ [(title, album)] :=
    dinsert_of_absent _ _ _ habsent
  have hlook : dlookup (all_albums ++ [(title, album)]) title = some album :=
    dlookup_append_self _ _ _ habsent
  refine ⟨?_, hlook, ?_⟩
  · simp only [get_album, habsent, hcreate, hfetch, hins]
  · intro url2
    simp only [get_album, hlook]

/-- C6: a rate-limit failure anywhere in the reconciliation loop is caught
once: the remaining credit information is printed, the same exception is
re-raised, and the trace before the failure is kept unchanged — no retry and
no extra remote call (in particular no rollback of albums or images already
created). -/
theorem rate_limit_reraised
    (client : Client) (parent : String) (images : List (String × List String))
    (all_albums : List (String × Album)) (e : RLE) (tr : List Event)
    (h : reconcile_loop client parent images all_albums = (Except.error e, tr)) :
    reconcile client parent images all_albums =
      (Except.error e, tr ++ [Event.output ("Passed limit " ++ client.credits)]) ∧
    (tr ++ [Event.output ("Passed limit " ++ client.credits)]).filter Event.isRemote =
      tr.filter Event.isRemote := by
  constructor
  · rw [reconcile, h]
  · rw [List.filter_append]
    rw [show [Event.output ("Passed limit " ++ client.credits)].filter Event.isRemote
      = [] from rfl]
    rw [List.append_nil]

/-- `get_album` never issues an upload call. -/
theorem get_album_no_upload (client : Client) (albums : List (String × Album))
    (title url : String) (r : Except RLE (Album × List (String × Album)))
    (ev : List Event) (h : get_album client albums title url = (r, ev)) :
    ev.filter Event.isUpload = [] := by
  rw [get_album] at h
  cases hfound : dlookup albums title with
  | some a =>
    simp only [hfound] at h
    cases h
    rfl
  | none =>
    simp only [hfound] at h
    cases hcr : client.create_album ⟨title, "hidden", "Album of images from " ++ url⟩ with
    | error e =>
      simp only [hcr] at h
      cases h
      rfl
    | ok aid =>
      simp only [hcr] at h
      cases hfe : client.get_album aid with
      | error e =>
        simp only [hfe] at h
        cases h
        rfl
      | ok alb =>
        simp only [hfe] at h
        cases h
        rfl

/-- C7: for a successfully processed group, the album source URL announced
and used is `ROOT_URL` prefixed to the album title with the tracked
directory name substituted by `lnxpcs/tree/master`, every file's source URL
is that album URL with the filename appended, and each upload's description
references its file's source URL. -/
theorem derived_source_urls
    (client : Client) (parent : String) (all_albums : List (String × Album))
    (title : String) (pngs : List String)
    (albums' : List (String × Album)) (ev : List Event)
    (hrun : handle_group client parent all_albums title pngs =
      (Except.ok albums', ev)) :
    Event.output ("Handling album " ++
      (ROOT_URL ++ strReplace title REPO_DIR "lnxpcs/tree/master")) ∈ ev ∧
    (∀ png ∈ pngs, Event.output ("\tHandling image " ++
      ((ROOT_URL ++ strReplace title REPO_DIR "lnxpcs/tree/master") ++ "/" ++ png)) ∈ ev) ∧
    (∀ path req, Event.uploadCall path req ∈ ev →
      ∃ png ∈ pngs,
        req.description = "A mirror of " ++
          ((ROOT_URL ++ strReplace title REPO_DIR "lnxpcs/tree/master") ++ "/" ++ png) ∧
        req.title = pjoin title png) := by
  rw [handle_group] at hrun
  rcases h1 : get_album client all_albums title (album_git_url title) with ⟨r1, ev1⟩
  rw [h1] at hrun
  cases r1 with
  | error e => cases hrun
  | ok pr =>
    rcases pr with ⟨album, albums1⟩
    rcases h2 : handle_images client parent title (album_git_url title) album pngs
      with ⟨r2, ev2⟩
    simp only [h2] at hrun
    cases r2 with
    | error e => cases hrun
    | ok u =>
      cases hrun
      have hurl : album_git_url title =
          ROOT_URL ++ strReplace title REPO_DIR "lnxpcs/tree/master" := rfl
      refine ⟨?_, ?_, ?_⟩
      · rw [← hurl]
        exact List.mem_append.mpr (Or.inl (List.mem_append.mpr (Or.inr (by simp))))
      · intro png hmem
        rw [← hurl]
        exact List.mem_append.mpr (Or.inr
          (handle_images_prints client parent title (album_git_url title) album pngs
            _ _ h2 rfl png hmem))
      · intro path req hmem
        rcases List.mem_append.mp hmem with hm | hm
        · rcases List.mem_append.mp hm with hm' | hm'
          · exfalso
            have hno := get_album_no_upload client all_albums title
              (album_git_url title) _ _ h1
            have hcontra : Event.uploadCall path req ∈ ev1.filter Event.isUpload :=
              List.mem_filter.mpr ⟨hm', rfl⟩
            rw [hno] at hcontra
            simp at hcontra
          · rcases List.mem_cons.mp hm' with hc | hc
            · cases hc
            · rcases List.mem_cons.mp hc with hc' | hc'
              · cases hc'
              · simp at hc'
        · rcases handle_images_upload_shape client parent title (album_git_url title)
            album pngs _ _ h2 path req hm with ⟨p, hpmem, hreq, _, _⟩
          refine ⟨p, hpmem, ?_, ?_⟩
          · rw [hreq, ← hurl]
          · rw [hreq]

/-! ### Basename on paths with a trailing separator -/

theorem splitOn_trailing (l' : List Char) :
    ((l' ++ ['/']).splitOn '/').getLast? = some [] ∧
      2 ≤ ((l' ++ ['/']).splitOn '/').length := by
  induction l' with
  | nil => exact ⟨rfl, by decide⟩
  | cons c rest ih =>
    rw [List.cons_append]
    rw [show ∀ (l : List Char), l.splitOn '/' = l.splitOnP (· == '/') from fun _ => rfl]
    rw [List.splitOnP_cons]
    by_cases hc : c = '/'
    · rw [if_pos (by simp [hc])]
      have hnn : (rest ++ ['/']).splitOnP (· == '/') ≠ [] := List.splitOnP_ne_nil _ _
      constructor
      · rw [getLast?_cons_of_ne_nil hnn]
        exact ih.1
      · simpa using Nat.succ_le_succ (List.length_pos.mpr hnn)
    · rw [if_neg (by simp [hc])]
      have h1 := ih.1
      have h2 := ih.2
      rw [show ∀ (l : List Char), l.splitOn '/' = l.splitOnP (· == '/') from fun _ => rfl]
        at h1 h2
      cases hS : (rest ++ ['/']).splitOnP (· == '/') with
      | nil => exact absurd hS (List.splitOnP_ne_nil _ _)
      | cons x xs =>
        rw [hS] at h1 h2
        cases xs with
        | nil => simp at h2
        | cons y ys =>
          refine ⟨?_, by simp⟩
          rw [List.modifyHead_cons]
          rw [List.getLast?_cons_cons] at h1 ⊢
          exact h1

/-- A path ending in `/` has empty basename (Python `os.path.basename`). -/
theorem basename_of_trailing_slash (p : String) (h : p.toList.getLast? = some '/') :
    basename p = "" := by
  have hsplit := List.dropLast_append_getLast? '/' h
  unfold basename
  rw [← hsplit]
  rw [(splitOn_trailing p.toList.dropLast).1]
  rfl

/-! ### Config Store lemmas -/

theorem find?_map_fst_preserving {β : Type} (l : List (String × β))
    (f : String × β → String × β) (hf : ∀ p, (f p).1 = p.1) (sec : String) :
    (l.map f).find? (fun p => p.1 = sec) = (l.find? (fun p => p.1 = sec)).map f := by
  induction l with
  | nil => rfl
  | cons p rest ih =>
    rw [List.map_cons, List.find?_cons, List.find?_cons]
    by_cases hp : p.1 = sec
    · rw [show (decide ((f p).1 = sec)) = true by rw [hf p]; simpa using hp]
      rw [show (decide (p.1 = sec)) = true by simpa using hp]
      rfl
    · rw [show (decide ((f p).1 = sec)) = false by rw [hf p]; simpa using hp]
      rw [show (decide (p.1 = sec)) = false by simpa using hp]
      exact ih

theorem lookupKV_setKV_self (l : List (String × String)) (k v : String) :
    lookupKV (setKV l k v) k = some v := by
  unfold setKV
  by_cases h : (l.find? (fun p => p.1 = k)).isSome
  · rw [if_pos h]
    induction l with
    | nil => simp at h
    | cons p rest ih =>
      rw [List.map_cons]
      by_cases hp : p.1 = k
      · rw [if_pos hp]
        unfold lookupKV
        rw [List.find?_cons]
        simp
      · rw [if_neg hp]
        unfold lookupKV
        rw [List.find?_cons]
        rw [show (decide (p.1 = k)) = false by simpa using hp]
        apply ih
        rw [List.find?_cons, show (decide (p.1 = k)) = false by simpa using hp] at h
        exact h
  · rw [if_neg h]
    unfold lookupKV
    rw [List.find?_append]
    rw [Option.not_isSome_iff_eq_none.mp h]
    simp

theorem lookupKV_setKV_other (l : List (String × String)) (k v k' : String)
    (hne : k' ≠ k) : lookupKV (setKV l k v) k' = lookupKV l k' := by
  unfold setKV
  by_cases h : (l.find? (fun p => p.1 = k)).isSome
  · rw [if_pos h]
    unfold lookupKV
    rw [find?_map_fst_preserving l _ (fun p => by by_cases hp : p.1 = k <;> simp [hp]) k']
    cases hf : l.find? (fun p => p.1 = k') with
    | none => rfl
    | some p =>
      have hpk' : p.1 = k' := by simpa using List.find?_some hf
      rw [Option.map_some', Option.map_some', Option.map_some']
      rw [if_neg (by rw [hpk']; exact hne)]
  · rw [if_neg h]
    unfold lookupKV
    rw [List.find?_append]
    cases hf : l.find? (fun p => p.1 = k') with
    | some p => rfl
    | none =>
      rw [show ([(k, v)].find? (fun p => p.1 = k')) = none by
        rw [List.find?_cons]
        rw [show (decide ((k, v).1 = k')) = false by simpa using (Ne.symm hne)]
        rfl]
      rfl

theorem setOpt_of_hasSection (c : Config) (sec k v : String)
    (h : c.hasSection sec = true) :
    c.setOpt sec k v = some ⟨c.defaults,
      c.sections.map (fun p => if p.1 = sec then (p.1, setKV p.2 k v) else p)⟩ := by
  unfold Config.setOpt
  unfold Config.hasSection at h
  cases hf : c.sections.find? (fun p => p.1 = sec) with
  | none => rw [hf] at h; cases h
  | some p => rfl

theorem sections_find?_setOpt (c : Config) (sec k v : String) (sec' : String) :
    (⟨c.defaults, c.sections.map
        (fun p => if p.1 = sec then (p.1, setKV p.2 k v) else p)⟩ : Config).sections.find?
      (fun p => p.1 = sec') =
    (c.sections.find? (fun p => p.1 = sec')).map
      (fun p => if p.1 = sec then (p.1, setKV p.2 k v) else p) := by
  exact find?_map_fst_preserving c.sections _
    (fun p => by by_cases hp : p.1 = sec <;> simp [hp]) sec'

theorem hasSection_setOpt (c : Config) (sec k v : String) (c' : Config)
    (h : c.setOpt sec k v = some c') (sec' : String) :
    c'.hasSection sec' = c.hasSection sec' := by
  unfold Config.setOpt at h
  cases hf : c.sections.find? (fun p => p.1 = sec) with
  | none => rw [hf] at h; cases h
  | some p =>
    rw [hf] at h
    cases h
    unfold Config.hasSection
    rw [show (⟨c.defaults, c.sections.map
        (fun p => if p.1 = sec then (p.1, setKV p.2 k v) else p)⟩ : Config).sections =
      c.sections.map (fun p => if p.1 = sec then (p.1, setKV p.2 k v) else p) from rfl]
    rw [find?_map_fst_preserving c.sections _
      (fun p => by by_cases hp : p.1 = sec <;> simp [hp]) sec']
    cases c.sections.find? (fun p => p.1 = sec') <;> rfl

theorem inSection_setOpt_self (c : Config) (sec k v : String) (c' : Config)
    (h : c.setOpt sec k v = some c') : c'.inSection sec k = some v := by
  unfold Config.setOpt at h
  cases hf : c.sections.find? (fun p => p.1 = sec) with
  | none => rw [hf] at h; cases h
  | some p =>
    rw [hf] at h
    cases h
    unfold Config.inSection
    rw [show (⟨c.defaults, c.sections.map
        (fun p => if p.1 = sec then (p.1, setKV p.2 k v) else p)⟩ : Config).sections =
      c.sections.map (fun p => if p.1 = sec then (p.1, setKV p.2 k v) else p) from rfl]
    rw [find?_map_fst_preserving c.sections _
      (fun p => by by_cases hp : p.1 = sec <;> simp [hp]) sec]
    rw [hf]
    have hpsec : p.1 = sec := by simpa using List.find?_some hf
    rw [Option.map_some']
    rw [if_pos hpsec]
    exact lookupKV_setKV_self p.2 k v

theorem inSection_setOpt_other (c : Config) (sec k v : String) (c' : Config)
    (h : c.setOpt sec k v = some c') (k' : String) (hk : k' ≠ k) :
    c'.inSection sec k' = c.inSection sec k' := by
  unfold Config.setOpt at h
  cases hf : c.sections.find? (fun p => p.1 = sec) with
  | none => rw [hf] at h; cases h
  | some p =>
    rw [hf] at h
    cases h
    unfold Config.inSection
    rw [show (⟨c.defaults, c.sections.map
        (fun p => if p.1 = sec then (p.1, setKV p.2 k v) else p)⟩ : Config).sections =
      c.sections.map (fun p => if p.1 = sec then (p.1, setKV p.2 k v) else p) from rfl]
    rw [find?_map_fst_preserving c.sections _
      (fun p => by by_cases hp : p.1 = sec <;> simp [hp]) sec]
    rw [hf]
    have hpsec : p.1 = sec := by simpa using List.find?_some hf
    rw [Option.map_some']
    rw [if_pos hpsec]
    exact lookupKV_setKV_other p.2 k v k' hk

theorem getOpt_setOpt_other_section (c : Config) (sec k v : String) (c' : Config)
    (h : c.setOpt sec k v = some c') (sec' key : String) (hne : sec' ≠ sec) :
    c'.getOpt sec' key = c.getOpt sec' key := by
  unfold Config.setOpt at h
  cases hf : c.sections.find? (fun p => p.1 = sec) with
  | none => rw [hf] at h; cases h
  | some p =>
    rw [hf] at h
    cases h
    unfold Config.getOpt
    by_cases hd : sec' = "DEFAULT"
    · rw [if_pos hd, if_pos hd]
    · rw [if_neg hd, if_neg hd]
      rw [show (⟨c.defaults, c.sections.map
          (fun p => if p.1 = sec then (p.1, setKV p.2 k v) else p)⟩ : Config).sections =
        c.sections.map (fun p => if p.1 = sec then (p.1, setKV p.2 k v) else p) from rfl]
      rw [find?_map_fst_preserving c.sections _
        (fun p => by by_cases hp : p.1 = sec <;> simp [hp]) sec']
      cases hf' : c.sections.find? (fun p => p.1 = sec') with
      | none => rfl
      | some q =>
        have hq : q.1 = sec' := by simpa using List.find?_some hf'
        rw [Option.map_some']
        rw [if_neg (by rw [hq]; exact hne)]

theorem getOpt_addSection (c : Config) (sec sec' key : String) (hne : sec' ≠ sec) :
    (c.addSection sec).getOpt sec' key = c.getOpt sec' key := by
  unfold Config.addSection Config.getOpt
  by_cases hd : sec' = "DEFAULT"
  · rw [if_pos hd, if_pos hd]
  · rw [if_neg hd, if_neg hd]
    rw [show (⟨c.defaults, c.sections ++ [(sec, [])]⟩ : Config).sections =
      c.sections ++ [(sec, [])] from rfl]
    rw [List.find?_append]
    cases hf : c.sections.find? (fun p => p.1 = sec') with
    | some p => rfl
    | none =>
      rw [show ([((sec : String), ([] : List (String × String)))].find?
          (fun p => p.1 = sec')) = none by
        rw [List.find?_cons]
        rw [show (decide (((sec : String), ([] : List (String × String))).1 = sec')) = false by
          simpa using (Ne.symm hne)]
        rfl]
      rfl

theorem hasSection_addSection_self (c : Config) (sec : String) :
    (c.addSection sec).hasSection sec = true := by
  unfold Config.addSection Config.hasSection
  rw [show (⟨c.defaults, c.sections ++ [(sec, [])]⟩ : Config).sections =
    c.sections ++ [(sec, [])] from rfl]
  rw [List.find?_append]
  cases hf : c.sections.find? (fun p => p.1 = sec) with
  | some p => rfl
  | none =>
    rw [show ([((sec : String), ([] : List (String × String)))].find?
        (fun p => p.1 = sec)) = some (sec, []) by
      rw [List.find?_cons]
      simp]
    rfl

theorem getOpt_of_inSection (c : Config) (sec key v : String) (hne : sec ≠ "DEFAULT")
    (h : c.inSection sec key = some v) : c.getOpt sec key = some v := by
  unfold Config.inSection at h
  unfold Config.getOpt
  rw [if_neg hne]
  cases hf : c.sections.find? (fun p => p.1 = sec) with
  | none =>
    rw [hf] at h
    have h' : (none : Option String) = some v := h
    cases h'
  | some p =>
    rw [hf] at h
    have h' : lookupKV p.2 key = some v := h
    show (match lookupKV p.2 key with
          | some v => some v
          | none => lookupKV c.defaults key) = some v
    rw [h']

theorem getOpt_isSome_of_hasOption (c : Config) (sec key : String)
    (hne : sec ≠ "DEFAULT") (h : c.hasOption sec key = true) :
    (c.getOpt sec key).isSome = true := by
  unfold Config.hasOption at h
  unfold Config.getOpt
  rw [if_neg hne]
  cases hf : c.sections.find? (fun p => p.1 = sec) with
  | none =>
    rw [hf] at h
    have h' : false = true := h
    cases h'
  | some p =>
    rw [hf] at h
    have h' : ((lookupKV p.2 key).isSome || (lookupKV c.defaults key).isSome) = true := h
    show (match lookupKV p.2 key with
          | some v => some v
          | none => lookupKV c.defaults key).isSome = true
    cases hl : lookupKV p.2 key with
    | some v => rfl
    | none =>
      rw [hl] at h'
      show (lookupKV c.defaults key).isSome = true
      simpa using h'

/-- Full specification of a successful Auth Flow run: the pin exchange
happens, both tokens are written into the `tokens` section, the updated
configuration is persisted, and nothing else in the configuration changes. -/
theorem request_new_token_spec (client : Client) (config : Config) (pin : String)
    (h : config.hasSection TOKENS_SECTION = true) :
    ∃ c2 : Config,
      request_new_token client config pin = some (c2,
        [Event.output ("Please enter the pin you received from " ++ client.get_auth_url "pin"),
         Event.authorizeCall pin "pin",
         Event.writeConfig c2,
         Event.output "Updated config for future use"]) ∧
      c2.inSection TOKENS_SECTION "access" = some (client.authorize pin "pin").access_token ∧
      c2.inSection TOKENS_SECTION "refresh" = some (client.authorize pin "pin").refresh_token ∧
      (∀ sec' key, sec' ≠ TOKENS_SECTION → c2.getOpt sec' key = config.getOpt sec' key) ∧
      c2.hasSection TOKENS_SECTION = true := by
  have h1 := setOpt_of_hasSection config TOKENS_SECTION "access"
    (client.authorize pin "pin").access_token h
  have hs1 : ∀ sec', (⟨config.defaults, config.sections.map
      (fun p => if p.1 = TOKENS_SECTION then
        (p.1, setKV p.2 "access" (client.authorize pin "pin").access_token) else p)⟩ :
      Config).hasSection sec' = config.hasSection sec' :=
    fun sec' => hasSection_setOpt config TOKENS_SECTION "access" _ _ h1 sec'
  have h2 := setOpt_of_hasSection _ TOKENS_SECTION "refresh"
    (client.authorize pin "pin").refresh_token (by rw [hs1]; exact h)
  exact ⟨_, by simp only [request_new_token, h1, h2],
    by
      rw [inSection_setOpt_other _ TOKENS_SECTION "refresh" _ _ h2 "access" (by decide)]
      exact inSection_setOpt_self config TOKENS_SECTION "access" _ _ h1,
    inSection_setOpt_self _ TOKENS_SECTION "refresh" _ _ h2,
    by
      intro sec' key hne
      rw [getOpt_setOpt_other_section _ TOKENS_SECTION "refresh" _ _ h2 sec' key hne]
      exact getOpt_setOpt_other_section config TOKENS_SECTION "access" _ _ h1 sec' key hne,
    by
      rw [hasSection_setOpt _ TOKENS_SECTION "refresh" _ _ h2 TOKENS_SECTION]
      rw [hs1]
      exact h⟩

/-! ### `main` performs no pin-exchange call -/

theorem get_album_no_authorize (client : Client) (albums : List (String × Album))
    (title url : String) (r : Except RLE (Album × List (String × Album)))
    (ev : List Event) (h : get_album client albums title url = (r, ev)) :
    ev.filter Event.isAuthorize = [] := by
  rw [get_album] at h
  cases hfound : dlookup albums title with
  | some a =>
    simp only [hfound] at h
    cases h
    rfl
  | none =>
    simp only [hfound] at h
    cases hcr : client.create_album ⟨title, "hidden", "Album of images from " ++ url⟩ with
    | error e =>
      simp only [hcr] at h
      cases h
      rfl
    | ok aid =>
      simp only [hcr] at h
      cases hfe : client.get_album aid with
      | error e =>
        simp only [hfe] at h
        cases h
        rfl
      | ok alb =>
        simp only [hfe] at h
        cases h
        rfl

theorem handle_images_no_authorize (client : Client) (parent title url : String)
    (album : Album) :
    ∀ (pngs : List String) (r : Except RLE Unit) (ev : List Event),
    handle_images client parent title url album pngs = (r, ev) →
    ev.filter Event.isAuthorize = [] := by
  intro pngs
  induction pngs with
  | nil =>
    intro r ev h
    rw [handle_images] at h
    cases h
    rfl
  | cons png rest ih =>
    intro r ev h
    rw [handle_images, handle_image] at h
    cases hfind : get_album_image album (pjoin title png) with
    | some img =>
      rw [hfind] at h
      rcases h2 : handle_images client parent title url album rest with ⟨r2, ev2⟩
      rw [h2] at h
      cases h
      rw [List.filter_append, ih _ _ h2]
      rfl
    | none =>
      rw [hfind] at h
      cases hup : client.upload_from_path (pjoin (pjoin parent title) png)
          ⟨pjoin title png, "A mirror of " ++ (url ++ "/" ++ png), album.deletehash⟩ with
      | error e =>
        rw [hup] at h
        cases h
        rfl
      | ok link =>
        rw [hup] at h
        rcases h2 : handle_images client parent title url album rest with ⟨r2, ev2⟩
        rw [h2] at h
        cases h
        rw [List.filter_append, ih _ _ h2]
        rfl

theorem handle_group_no_authorize (client : Client) (parent : String)
    (albums : List (String × Album)) (title : String) (pngs : List String)
    (r : Except RLE (List (String × Album))) (ev : List Event)
    (h : handle_group client parent albums title pngs = (r, ev)) :
    ev.filter Event.isAuthorize = [] := by
  rw [handle_group] at h
  rcases h1 : get_album client albums title (album_git_url title) with ⟨r1, ev1⟩
  simp only [h1] at h
  cases r1 with
  | error e =>
    cases h
    exact get_album_no_authorize client albums title (album_git_url title) _ _ h1
  | ok pr =>
    rcases pr with ⟨album, albums1⟩
    rcases h2 : handle_images client parent title (album_git_url title) album pngs
      with ⟨r2, ev2⟩
    simp only [h2] at h
    cases h
    rw [List.filter_append, List.filter_append]
    rw [get_album_no_authorize client albums title (album_git_url title) _ _ h1]
    rw [handle_images_no_authorize client parent title (album_git_url title) album pngs
      _ _ h2]
    rfl

theorem reconcile_loop_no_authorize (client : Client) (parent : String) :
    ∀ (images : List (String × List String)) (albums : List (String × Album))
      (r : Except RLE Unit) (ev : List Event),
    reconcile_loop client parent images albums = (r, ev) →
    ev.filter Event.isAuthorize = [] := by
  intro images
  induction images with
  | nil =>
    intro albums r ev h
    rw [reconcile_loop] at h
    cases h
    rfl
  | cons g rest ih =>
    intro albums r ev h
    rcases g with ⟨title, pngs⟩
    rw [reconcile_loop] at h
    rcases h1 : handle_group client parent albums title pngs with ⟨r1, ev1⟩
    rw [h1] at h
    cases r1 with
    | error e =>
      cases h
      exact handle_group_no_authorize client parent albums title pngs _ _ h1
    | ok albums' =>
      rcases h2 : reconcile_loop client parent rest albums' with ⟨r2, ev2⟩
      simp only [h2] at h
      cases h
      rw [List.filter_append]
      rw [handle_group_no_authorize client parent albums title pngs _ _ h1]
      rw [ih albums' _ _ h2]
      rfl

theorem reconcile_no_authorize (client : Client) (parent : String)
    (images : List (String × List String)) (albums : List (String × Album))
    (r : Except RLE Unit) (ev : List Event)
    (h : reconcile client parent images albums = (r, ev)) :
    ev.filter Event.isAuthorize = [] := by
  rw [reconcile] at h
  rcases h1 : reconcile_loop client parent images albums with ⟨r1, ev1⟩
  rw [h1] at h
  cases r1 with
  | ok u =>
    cases h
    exact reconcile_loop_no_authorize client parent images albums _ _ h1
  | error e =>
    cases h
    rw [List.filter_append]
    rw [reconcile_loop_no_authorize client parent images albums _ _ h1]
    rfl

theorem fetch_albums_fold_no_authorize (client : Client) :
    ∀ (albums : List Album) (acc : List (String × Album))
      (r : Except RLE (List (String × Album))) (ev : List Event),
    fetch_albums_fold client albums acc = (r, ev) →
    ev.filter Event.isAuthorize = [] := by
  intro albums
  induction albums with
  | nil =>
    intro acc r ev h
    rw [fetch_albums_fold] at h
    cases h
    rfl
  | cons a rest ih =>
    intro acc r ev h
    rw [fetch_albums_fold] at h
    cases hga : client.get_album a.id with
    | error e =>
      rw [hga] at h
      cases h
      rfl
    | ok full =>
      simp only [hga] at h
      rcases h2 : fetch_albums_fold client rest (dinsert acc a.title full) with ⟨r2, ev2⟩
      simp only [h2] at h
      cases h
      rw [List.filter_cons]
      rw [show (Event.isAuthorize (Event.getAlbumCall a.id)) = false from rfl]
      simp only [Bool.false_eq_true, if_neg, reduceCtorEq, not_false_eq_true]
      exact ih _ _ _ h2

theorem fetch_all_albums_no_authorize (client : Client) (user : String)
    (r : Except RLE (List (String × Album))) (ev : List Event)
    (h : fetch_all_albums client user = (r, ev)) :
    ev.filter Event.isAuthorize = [] := by
  rw [fetch_all_albums] at h
  cases hga : client.get_account_albums user with
  | error e =>
    rw [hga] at h
    cases h
    rfl
  | ok albums =>
    simp only [hga] at h
    rcases h2 : fetch_albums_fold client albums [] with ⟨r2, ev2⟩
    simp only [h2] at h
    cases h
    rw [List.filter_cons]
    rw [show (Event.isAuthorize (Event.getAccountAlbumsCall user)) = false from rfl]
    simp only [Bool.false_eq_true, if_neg, reduceCtorEq, not_false_eq_true]
    exact fetch_albums_fold_no_authorize client albums [] _ _ h2

/-- `main` never performs the pin exchange. -/
theorem main_no_authorize (client : Client) (config : Config) (path : String)
    (isdir : String → Bool) (tree : FSTree) :
    ((main client config path isdir tree).2).filter Event.isAuthorize = [] := by
  rw [main]
  split
  · split
    · rfl
    · split
      · rfl
      · split
        · rfl
        · next user hu =>
          rcases hf : fetch_all_albums client user with ⟨rf, evf⟩
          simp only [hf]
          cases rf with
          | error e =>
            exact fetch_all_albums_no_authorize client user _ _ hf
          | ok all_albums =>
            rcases hr : reconcile client (parentPath path)
                (find_all_images (parentPath path) tree) all_albums with ⟨rr, evr⟩
            simp only [hr]
            cases rr with
            | ok u =>
              rw [List.filter_append]
              rw [fetch_all_albums_no_authorize client user _ _ hf]
              rw [reconcile_no_authorize client (parentPath path) _ all_albums _ _ hr]
              rfl
            | error e =>
              rw [List.filter_append]
              rw [fetch_all_albums_no_authorize client user _ _ hf]
              rw [reconcile_no_authorize client (parentPath path) _ all_albums _ _ hr]
              rfl
  · rfl

/-- With valid client and token configuration values, `main` on an invalid
path (wrong final segment or not a directory) exits with status 1 after a
single diagnostic print, making no remote call. -/
theorem main_exits_of_invalid_path (client : Client) (config : Config)
    (path : String) (isdir : String → Bool) (tree : FSTree)
    (h1 : (config.getOpt CLIENT_SECTION "id").isSome = true)
    (h2 : (config.getOpt CLIENT_SECTION "secret").isSome = true)
    (h3 : (config.getOpt TOKENS_SECTION "access").isSome = true)
    (h4 : (config.getOpt TOKENS_SECTION "refresh").isSome = true)
    (hbad : basename path ≠ REPO_DIR ∨ isdir path = false) :
    ∃ msg, main client config path isdir tree =
      (Outcome.exited 1, [Event.output msg]) := by
  obtain ⟨i, hi⟩ := Option.isSome_iff_exists.mp h1
  obtain ⟨s, hs⟩ := Option.isSome_iff_exists.mp h2
  obtain ⟨a, ha⟩ := Option.isSome_iff_exists.mp h3
  obtain ⟨r, hr⟩ := Option.isSome_iff_exists.mp h4
  rw [main]
  simp only [hi, hs, ha, hr]
  by_cases hbn : basename path ≠ REPO_DIR
  · rw [if_pos hbn]
    exact ⟨_, rfl⟩
  · rw [if_neg hbn]
    have hdir : isdir path = false := by
      rcases hbad with hb | hb
      · exact absurd hb hbn
      · exact hb
    rw [hdir]
    rw [if_pos (show (!false) = true from rfl)]
    exact ⟨_, rfl⟩

/-- C9: reconciliation runs directly, with no pin exchange, exactly when the
tokens section is present and has both the access and the refresh key (in
`configparser` semantics); otherwise Auth Flow runs first (performing the pin
exchange and persisting both tokens) and reconciliation runs on the updated
configuration. -/
theorem tokens_gate_auth_flow (client : Client) (config : Config)
    (path pin : String) (isdir : String → Bool) (tree : FSTree)
    (hcs : config.hasSection CLIENT_SECTION = true)
    (hid : config.hasOption CLIENT_SECTION "id" = true)
    (hsc : config.hasOption CLIENT_SECTION "secret" = true)
    (u : String) (hu : config.getOpt "DEFAULT" "user" = some u) :
    (tokensPresent config = true →
      entry_point client config path pin isdir tree =
        main client config path isdir tree ∧
      ((entry_point client config path pin isdir tree).2).filter Event.isAuthorize = []) ∧
    (tokensPresent config = false →
      ∃ c2 : Config,
        entry_point client config path pin isdir tree =
          ((main client c2 path isdir tree).1,
           [Event.output ("Please enter the pin you received from " ++
              client.get_auth_url "pin"),
            Event.authorizeCall pin "pin",
            Event.writeConfig c2,
            Event.output "Updated config for future use"] ++
            (main client c2 path isdir tree).2) ∧
        Event.authorizeCall pin "pin" ∈ (entry_point client config path pin isdir tree).2 ∧
        c2.inSection TOKENS_SECTION "access" =
          some (client.authorize pin "pin").access_token ∧
        c2.inSection TOKENS_SECTION "refresh" =
          some (client.authorize pin "pin").refresh_token) := by
  constructor
  · intro htok
    have heq : entry_point client config path pin isdir tree =
        main client config path isdir tree := by
      rw [entry_point]
      simp only [hcs, hid, hsc, hu, htok, Bool.not_true, Bool.and_self,
        Bool.false_eq_true, if_neg, if_pos, ite_false, ite_true, reduceCtorEq,
        not_false_eq_true]
    exact ⟨heq, by rw [heq]; exact main_no_authorize client config path isdir tree⟩
  · intro htok
    have hc' : (if !config.hasSection TOKENS_SECTION then
        config.addSection TOKENS_SECTION else config).hasSection TOKENS_SECTION = true := by
      cases hts : config.hasSection TOKENS_SECTION with
      | true => simp [hts]
      | false => simp [hts, hasSection_addSection_self]
    obtain ⟨c2, hreq, hacc, href, hpres, hsec2⟩ := request_new_token_spec client
      (if !config.hasSection TOKENS_SECTION then
        config.addSection TOKENS_SECTION else config) pin hc'
    rcases hm : main client c2 path isdir tree with ⟨o, mev⟩
    have heq : entry_point client config path pin isdir tree =
        (o, [Event.output ("Please enter the pin you received from " ++
              client.get_auth_url "pin"),
             Event.authorizeCall pin "pin",
             Event.writeConfig c2,
             Event.output "Updated config for future use"] ++ mev) := by
      rw [entry_point]
      simp only [hcs, hid, hsc, hu, htok, Bool.not_true, Bool.and_self,
        Bool.false_eq_true, if_neg, ite_false, ite_true, reduceCtorEq,
        not_false_eq_true, hreq, hm]
    refine ⟨c2, ?_, ?_, hacc, href⟩
    · rw [heq, hm]
    · rw [heq]
      simp

/-- C10: a repository path ending in a path separator has an empty basename,
so `main` exits with status 1 even when the path is an existing directory
whose (trailing-slash-stripped) name is the tracked directory name. -/
theorem trailing_slash_rejected (client : Client) (config : Config)
    (path : String) (isdir : String → Bool) (tree : FSTree) (i s a r : String)
    (h1 : config.getOpt CLIENT_SECTION "id" = some i)
    (h2 : config.getOpt CLIENT_SECTION "secret" = some s)
    (h3 : config.getOpt TOKENS_SECTION "access" = some a)
    (h4 : config.getOpt TOKENS_SECTION "refresh" = some r)
    (hsl : path.toList.getLast? = some '/')
    (_hdir : isdir path = true)
    (_hname : basename (⟨path.toList.dropLast⟩ : String) = REPO_DIR) :
    basename path = "" ∧
    main client config path isdir tree =
      (Outcome.exited 1,
       [Event.output ("Please provide a path to a lnxpcs directory. Given " ++ path)]) := by
  have hbn := basename_of_trailing_slash path hsl
  refine ⟨hbn, ?_⟩
  rw [main]
  simp only [h1, h2, h3, h4]
  rw [if_pos (by rw [hbn]; decide)]

/-- C8: a successful Auth Flow run writes both the access and the refresh
token into the configuration's tokens section and immediately rewrites the
configuration file, whose persisted contents then hold both keys. -/
theorem auth_flow_persists_tokens (client : Client) (config : Config) (pin : String)
    (h : config.hasSection TOKENS_SECTION = true) :
    ∃ (c2 : Config) (ev : List Event),
      request_new_token client config pin = some (c2, ev) ∧
      c2.inSection TOKENS_SECTION "access" =
        some (client.authorize pin "pin").access_token ∧
      c2.inSection TOKENS_SECTION "refresh" =
        some (client.authorize pin "pin").refresh_token ∧
      Event.writeConfig c2 ∈ ev := by
  obtain ⟨c2, hreq, hacc, href, _, _⟩ := request_new_token_spec client config pin h
  exact ⟨c2, _, hreq, hacc, href, by simp⟩

/-- C5 (amended): when the supplied path's final segment is not the tracked
name or the path is not an existing directory, the process always exits with
status 1; if the tokens check passes (or an earlier configuration check
fails) no remote operation occurs at all, and otherwise the Auth Flow pin
exchange is the only remote operation performed — no album or image
operation ever occurs. -/
theorem invalid_path_exits (client : Client) (config : Config) (path pin : String)
    (isdir : String → Bool) (tree : FSTree)
    (hbad : basename path ≠ REPO_DIR ∨ isdir path = false) :
    (entry_point client config path pin isdir tree).1 = Outcome.exited 1 ∧
    (((entry_point client config path pin isdir tree).2).filter Event.isRemote = [] ∨
     ((entry_point client config path pin isdir tree).2).filter Event.isRemote =
       [Event.authorizeCall pin "pin"]) ∧
    (tokensPresent config = true →
      ((entry_point client config path pin isdir tree).2).filter Event.isRemote = []) := by
  cases hcs : config.hasSection CLIENT_SECTION with
  | false =>
    have he : entry_point client config path pin isdir tree =
        (Outcome.exited 1,
         [Event.output "You need a client configuration to access imgur. Get one at https://apidocs.imgur.com/"]) := by
      rw [entry_point]
      simp only [hcs, Bool.not_false, if_pos]
    rw [he]
    exact ⟨rfl, Or.inl rfl, fun _ => rfl⟩
  | true =>
    cases hio : (config.hasOption CLIENT_SECTION "id" &&
        config.hasOption CLIENT_SECTION "secret") with
    | false =>
      have he : entry_point client config path pin isdir tree =
          (Outcome.exited 1, [Event.output "Client config incomplete!"]) := by
        rw [entry_point]
        simp only [hcs, hio, Bool.not_true, Bool.not_false, Bool.false_eq_true,
          if_neg, if_pos, ite_false, ite_true, reduceCtorEq, not_false_eq_true]
      rw [he]
      exact ⟨rfl, Or.inl rfl, fun _ => rfl⟩
    | true =>
      obtain ⟨hid, hsc⟩ : config.hasOption CLIENT_SECTION "id" = true ∧
          config.hasOption CLIENT_SECTION "secret" = true := by simpa using hio
      cases hu : config.getOpt "DEFAULT" "user" with
      | none =>
        have he : entry_point client config path pin isdir tree =
            (Outcome.exited 1,
             [Event.output "Please add an imgur user to the default section of the configuration"]) := by
          rw [entry_point]
          simp only [hcs, hio, hu, Bool.not_true, Bool.false_eq_true, if_neg,
            ite_false, ite_true, reduceCtorEq, not_false_eq_true]
        rw [he]
        exact ⟨rfl, Or.inl rfl, fun _ => rfl⟩
      | some u =>
        cases htok : tokensPresent config with
        | true =>
          have htok' := htok
          unfold tokensPresent at htok'
          obtain ⟨⟨hsect, href⟩, hacc⟩ : (config.hasSection TOKENS_SECTION = true ∧
              config.hasOption TOKENS_SECTION "refresh" = true) ∧
              config.hasOption TOKENS_SECTION "access" = true := by
            simpa [and_assoc] using htok'
          obtain ⟨msg, hmain⟩ := main_exits_of_invalid_path client config path isdir tree
            (getOpt_isSome_of_hasOption config CLIENT_SECTION "id" (by decide) hid)
            (getOpt_isSome_of_hasOption config CLIENT_SECTION "secret" (by decide) hsc)
            (getOpt_isSome_of_hasOption config TOKENS_SECTION "access" (by decide) hacc)
            (getOpt_isSome_of_hasOption config TOKENS_SECTION "refresh" (by decide) href)
            hbad
          have he : entry_point client config path pin isdir tree =
              (Outcome.exited 1, [Event.output msg]) := by
            rw [entry_point]
            simp only [hcs, hio, hu, htok, Bool.not_true, Bool.false_eq_true, if_neg,
              ite_false, ite_true, reduceCtorEq, not_false_eq_true]
            exact hmain
          rw [he]
          exact ⟨rfl, Or.inl rfl, fun _ => rfl⟩
        | false =>
          have hc' : (if !config.hasSection TOKENS_SECTION then
              config.addSection TOKENS_SECTION else config).hasSection TOKENS_SECTION
              = true := by
            cases hts : config.hasSection TOKENS_SECTION with
            | true => simp [hts]
            | false => simp [hts, hasSection_addSection_self]
          obtain ⟨c2, hreq, haccI, hrefI, hpres, hsec2⟩ := request_new_token_spec client
            (if !config.hasSection TOKENS_SECTION then
              config.addSection TOKENS_SECTION else config) pin hc'
          have hX : ∀ (sec' key : String), sec' ≠ TOKENS_SECTION →
              (if !config.hasSection TOKENS_SECTION then
                config.addSection TOKENS_SECTION else config).getOpt sec' key =
              config.getOpt sec' key := by
            intro sec' key hne
            cases hts : config.hasSection TOKENS_SECTION with
            | true => simp [hts]
            | false =>
              simp only [hts, Bool.not_false, if_pos, ite_true]
              exact getOpt_addSection config TOKENS_SECTION sec' key hne
          have hCne : CLIENT_SECTION ≠ TOKENS_SECTION := by decide
          have hgid : (c2.getOpt CLIENT_SECTION "id").isSome = true := by
            rw [hpres CLIENT_SECTION "id" hCne, hX CLIENT_SECTION "id" hCne]
            exact getOpt_isSome_of_hasOption config CLIENT_SECTION "id" (by decide) hid
          have hgsc : (c2.getOpt CLIENT_SECTION "secret").isSome = true := by
            rw [hpres CLIENT_SECTION "secret" hCne, hX CLIENT_SECTION "secret" hCne]
            exact getOpt_isSome_of_hasOption config CLIENT_SECTION "secret" (by decide) hsc
          have hgacc : (c2.getOpt TOKENS_SECTION "access").isSome = true := by
            rw [getOpt_of_inSection c2 TOKENS_SECTION "access" _ (by decide) haccI]
            rfl
          have hgref : (c2.getOpt TOKENS_SECTION "refresh").isSome = true := by
            rw [getOpt_of_inSection c2 TOKENS_SECTION "refresh" _ (by decide) hrefI]
            rfl
          obtain ⟨msg, hmain⟩ := main_exits_of_invalid_path client c2 path isdir tree
            hgid hgsc hgacc hgref hbad
          have he : entry_point client config path pin isdir tree =
              (Outcome.exited 1,
               [Event.output ("Please enter the pin you received from " ++
                  client.get_auth_url "pin"),
                Event.authorizeCall pin "pin",
                Event.writeConfig c2,
                Event.output "Updated config for future use"] ++ [Event.output msg]) := by
            rw [entry_point]
            simp only [hcs, hio, hu, htok, Bool.not_true, Bool.false_eq_true, if_neg,
              ite_false, ite_true, reduceCtorEq, not_false_eq_true, hreq, hmain]
          rw [he]
          refine ⟨rfl, Or.inr rfl, ?_⟩
          intro hcontra
          exact absurd hcontra Bool.false_ne_true

/-! ### Concrete fixtures for witnesses -/

/-- A deterministic service oracle on which every call succeeds. -/
def testClient : Client :=
  ⟨fun _ => Except.ok "alb1",
   fun i => Except.ok ⟨i, "t", "dh", "http://album.link", []⟩,
   fun _ => Except.ok [],
   fun _ _ => Except.ok "http://img.link",
   fun _ => "http://auth.url",
   fun _ _ => ⟨"acc-tok", "ref-tok"⟩,
   "42"⟩

/-- A service oracle whose uploads hit the rate limit. -/
def rlClient : Client :=
  ⟨fun _ => Except.ok "alb1",
   fun i => Except.ok ⟨i, "t", "dh", "http://album.link", []⟩,
   fun _ => Except.ok [],
   fun _ _ => Except.error ⟨"limit"⟩,
   fun _ => "http://auth.url",
   fun _ _ => ⟨"acc-tok", "ref-tok"⟩,
   "42"⟩

def wAlbum : Album :=
  ⟨"a1", "lnxpcs/foo", "dh", "http://alb", [⟨"lnxpcs/foo/a.png", "l1"⟩]⟩

def wRun : Except RLE Unit × List Event :=
  handle_images testClient "/home" "lnxpcs/foo" (album_git_url "lnxpcs/foo") wAlbum
    ["a.png", "b.png"]

def wAlbums : List (String × Album) := [("lnxpcs/foo", wAlbum)]

def wg : Except RLE (List (String × Album)) × List Event :=
  handle_group testClient "/home" wAlbums "lnxpcs/foo" ["a.png"]

def w7 : Except RLE (List (String × Album)) × List Event :=
  handle_group testClient "/home" [] "lnxpcs/foo" ["a.png"]

def wAlbumsEmptyImages : List (String × Album) :=
  [("lnxpcs/foo", ⟨"a1", "lnxpcs/foo", "dh", "http://alb", []⟩)]

def wLoop : Except RLE Unit × List Event :=
  reconcile_loop rlClient "/home" [("lnxpcs/foo", ["a.png"])] wAlbumsEmptyImages

/-- Configuration with client, user and both tokens. -/
def wConfig : Config :=
  ⟨[("user", "alice")],
   [("client", [("id", "cid"), ("secret", "cs")]),
    ("tokens", [("access", "A"), ("refresh", "R")])]⟩

/-- Configuration with client and user but no tokens section. -/
def cexConfig : Config :=
  ⟨[("user", "alice")], [("client", [("id", "cid"), ("secret", "cs")])]⟩

def wTree : FSTree := FSTree.node "lnxpcs" [] []

/-! ### Witnesses and counterexample -/

/-- Witness for C1 on a two-file group where `a.png` is already mirrored and
`b.png` is not. -/
theorem upload_iff_title_absent_witness :
    uploadsWithTitle wRun.2 (pjoin "lnxpcs/foo" "a.png") = [] ∧
    uploadsWithTitle wRun.2 (pjoin "lnxpcs/foo" "b.png") =
      [Event.uploadCall (pjoin (pjoin "/home" "lnxpcs/foo") "b.png")
        ⟨pjoin "lnxpcs/foo" "b.png",
         "A mirror of " ++ (album_git_url "lnxpcs/foo" ++ "/" ++ "b.png"),
         wAlbum.deletehash⟩] := by
  have h := upload_iff_title_absent testClient "/home" "lnxpcs/foo"
    (album_git_url "lnxpcs/foo") wAlbum ["a.png", "b.png"] wRun.2
    (by decide) (by decide) (by decide) (by decide) (by decide)
  exact ⟨(h "a.png" (by decide)).1 (by decide), (h "b.png" (by decide)).2 (by decide)⟩

/-- Witness for C2 on a one-directory tree with one matching file. -/
theorem find_all_images_groups_witness :
    (find_all_images (mkAbs ["home"]) (FSTree.node "lnxpcs" ["a.png", "b.txt"] [])).filter
        (fun g => g.1 = relpath (pjoin (mkAbs ["home"]) REPO_DIR) (mkAbs ["home"])) =
      if ((["a.png", "b.txt"].filter (fun file => file.endsWith ".png")).isEmpty) then []
      else [(relpath (pjoin (mkAbs ["home"]) REPO_DIR) (mkAbs ["home"]),
            ["a.png", "b.txt"].filter (fun file => file.endsWith ".png"))] :=
  find_all_images_groups ["home"] (FSTree.node "lnxpcs" ["a.png", "b.txt"] [])
    (pjoin (mkAbs ["home"]) REPO_DIR) [] ["a.png", "b.txt"] (by decide)
    (WF.mk "lnxpcs" ["a.png", "b.txt"] [] (by simp) (by simp) (by simp))
    (by decide)

/-- Witness for C3: the group's title is already in the album mapping. -/
theorem album_reuse_no_creation_witness :
    (wg.2).filter Event.isCreateAlbum = [] ∧
    (wg.2).take 2 = [Event.output ("Handling album " ++ album_git_url "lnxpcs/foo"),
                     Event.output ("Album @ " ++ wAlbum.link)] ∧
    (∀ albums', wg.1 = Except.ok albums' → albums' = wAlbums) :=
  album_reuse_no_creation testClient "/home" wAlbums "lnxpcs/foo" ["a.png"] wAlbum
    wg.1 wg.2 (by decide) rfl

/-- Witness for C4: the title is absent, so one hidden album is created,
fetched, cached and then reused. -/
theorem album_creation_once_witness :
    get_album testClient [] "lnxpcs/foo" "u" =
      (Except.ok (⟨"alb1", "t", "dh", "http://album.link", []⟩,
        [("lnxpcs/foo", ⟨"alb1", "t", "dh", "http://album.link", []⟩)]),
       [Event.createAlbumCall ⟨"lnxpcs/foo", "hidden", "Album of images from " ++ "u"⟩,
        Event.getAlbumCall "alb1"]) ∧
    dlookup [("lnxpcs/foo", (⟨"alb1", "t", "dh", "http://album.link", []⟩ : Album))]
      "lnxpcs/foo" = some ⟨"alb1", "t", "dh", "http://album.link", []⟩ ∧
    get_album testClient [("lnxpcs/foo", ⟨"alb1", "t", "dh", "http://album.link", []⟩)]
      "lnxpcs/foo" "u2" =
      (Except.ok (⟨"alb1", "t", "dh", "http://album.link", []⟩,
        [("lnxpcs/foo", ⟨"alb1", "t", "dh", "http://album.link", []⟩)]), []) := by
  have h := album_creation_once testClient [] "lnxpcs/foo" "u" "alb1"
    ⟨"alb1", "t", "dh", "http://album.link", []⟩ (by decide) (by decide) (by decide)
  exact ⟨h.1, h.2.1, h.2.2 "u2"⟩

/-- Counterexample for C5 as stated: with no tokens in the configuration and
an invalid path, the process still exits with status 1 but a remote
operation (the pin exchange) has been performed. -/
theorem invalid_path_remote_op_counterexample :
    (entry_point testClient cexConfig "/repo/bad" "1234" (fun _ => true) wTree).1 =
      Outcome.exited 1 ∧
    Event.authorizeCall "1234" "pin" ∈
      (entry_point testClient cexConfig "/repo/bad" "1234" (fun _ => true) wTree).2 ∧
    Event.isRemote (Event.authorizeCall "1234" "pin") = true := by
  decide

/-- Witness for the amended C5, with tokens present. -/
theorem invalid_path_exits_witness :
    (entry_point testClient wConfig "/repo/bad" "1234" (fun _ => true) wTree).1 =
      Outcome.exited 1 ∧
    (((entry_point testClient wConfig "/repo/bad" "1234" (fun _ => true) wTree).2).filter
        Event.isRemote = [] ∨
     ((entry_point testClient wConfig "/repo/bad" "1234" (fun _ => true) wTree).2).filter
        Event.isRemote = [Event.authorizeCall "1234" "pin"]) ∧
    (tokensPresent wConfig = true →
      ((entry_point testClient wConfig "/repo/bad" "1234" (fun _ => true) wTree).2).filter
        Event.isRemote = []) :=
  invalid_path_exits testClient wConfig "/repo/bad" "1234" (fun _ => true) wTree
    (by decide)

/-- Witness for C6 on a loop whose single upload hits the rate limit. -/
theorem rate_limit_reraised_witness :
    reconcile rlClient "/home" [("lnxpcs/foo", ["a.png"])] wAlbumsEmptyImages =
      (Except.error ⟨"limit"⟩,
       wLoop.2 ++ [Event.output ("Passed limit " ++ rlClient.credits)]) ∧
    (wLoop.2 ++ [Event.output ("Passed limit " ++ rlClient.credits)]).filter
        Event.isRemote = wLoop.2.filter Event.isRemote :=
  rate_limit_reraised rlClient "/home" [("lnxpcs/foo", ["a.png"])] wAlbumsEmptyImages
    ⟨"limit"⟩ wLoop.2 (by decide)

/-- Witness for C7 on a freshly created album with one file. -/
theorem derived_source_urls_witness :
    Event.output ("Handling album " ++
      (ROOT_URL ++ strReplace "lnxpcs/foo" REPO_DIR "lnxpcs/tree/master")) ∈ w7.2 ∧
    Event.output ("\tHandling image " ++
      ((ROOT_URL ++ strReplace "lnxpcs/foo" REPO_DIR "lnxpcs/tree/master") ++ "/" ++
        "a.png")) ∈ w7.2 := by
  have h := derived_source_urls testClient "/home" [] "lnxpcs/foo" ["a.png"]
    [("lnxpcs/foo", ⟨"alb1", "t", "dh", "http://album.link", []⟩)] w7.2 (by decide)
  exact ⟨h.1, h.2.1 "a.png" (by decide)⟩

/-- Witness for C8 on a configuration holding a tokens section. -/
theorem auth_flow_persists_tokens_witness :
    ∃ (c2 : Config) (ev : List Event),
      request_new_token testClient wConfig "9999" = some (c2, ev) ∧
      c2.inSection TOKENS_SECTION "access" =
        some (testClient.authorize "9999" "pin").access_token ∧
      c2.inSection TOKENS_SECTION "refresh" =
        some (testClient.authorize "9999" "pin").refresh_token ∧
      Event.writeConfig c2 ∈ ev :=
  auth_flow_persists_tokens testClient wConfig "9999" (by decide)

/-- Witness for C9 on a configuration with both tokens present. -/
theorem tokens_gate_auth_flow_witness :
    (tokensPresent wConfig = true →
      entry_point testClient wConfig "/repo/bad" "1234" (fun _ => true) wTree =
        main testClient wConfig "/repo/bad" (fun _ => true) wTree ∧
      ((entry_point testClient wConfig "/repo/bad" "1234" (fun _ => true) wTree).2).filter
        Event.isAuthorize = []) ∧
    (tokensPresent wConfig = false →
      ∃ c2 : Config,
        entry_point testClient wConfig "/repo/bad" "1234" (fun _ => true) wTree =
          ((main testClient c2 "/repo/bad" (fun _ => true) wTree).1,
           [Event.output ("Please enter the pin you received from " ++
              testClient.get_auth_url "pin"),
            Event.authorizeCall "1234" "pin",
            Event.writeConfig c2,
            Event.output "Updated config for future use"] ++
            (main testClient c2 "/repo/bad" (fun _ => true) wTree).2) ∧
        Event.authorizeCall "1234" "pin" ∈
          (entry_point testClient wConfig "/repo/bad" "1234" (fun _ => true) wTree).2 ∧
        c2.inSection TOKENS_SECTION "access" =
          some (testClient.authorize "1234" "pin").access_token ∧
        c2.inSection TOKENS_SECTION "refresh" =
          some (testClient.authorize "1234" "pin").refresh_token) :=
  tokens_gate_auth_flow testClient wConfig "/repo/bad" "1234" (fun _ => true) wTree
    (by decide) (by decide) (by decide) "alice" (by decide)

/-- Witness for C10 on `/repo/lnxpcs/`: an existing directory named `lnxpcs`
but with a trailing slash. -/
theorem trailing_slash_rejected_witness :
    basename "/repo/lnxpcs/" = "" ∧
    main testClient wConfig "/repo/lnxpcs/" (fun _ => true) wTree =
      (Outcome.exited 1,
       [Event.output ("Please provide a path to a lnxpcs directory. Given " ++
          "/repo/lnxpcs/")]) :=
  trailing_slash_rejected testClient wConfig "/repo/lnxpcs/" (fun _ => true) wTree
    "cid" "cs" "A" "R" (by decide) (by decide) (by decide) (by decide)
    (by decide) (by decide) (by decide)

end Imgur
